import Mathlib

/-!
# Verification of the vkhr hair-asset core

Shallow embedding of `src/vkhr/scene_graph/hair_style.cc` and the shading
decision logic of `src/vkhr/ray_tracer.cc`, together with theorems settling
the frozen claims about them.

Modelling conventions:
* C++ machine integers are modelled as `Nat` with explicit `% 2^w`
  reductions exactly where the source performs width-truncating
  operations (the `uint64_t` xorshift state, the wrap of the `unsigned`
  pre-decrement in `HairStyle::reduce`).  `size_t`-to-`unsigned` casts of
  container sizes are modelled without truncation: every asset
  representable in the HAIR file format keeps its counts in `uint32`
  header fields, so the counts are below `2^32`.
* `float` values that the code merely stores, copies and compares are
  modelled as an opaque scalar type parameter `α` (instantiated with the
  32-bit pattern as a `Nat` for the binary codec, and with `ℚ` where the
  code computes with the values: bounding boxes, voxelization, fused
  buffers).  Float literals of the source (`0.042f`, `0.5f`, ...) are
  modelled by the corresponding rationals.  Tangent generation divides by
  a Euclidean norm, so it is modelled over `ℝ` with `Real.sqrt`.
* Fallible operations return `Option`; `none` models an error state.
-/

/-- 3-component vector, as used for positions, tangents and colors. -/
abbrev Vec3 (α : Type) := α × α × α

/-- 4-component vector, as produced by the fused-buffer accessors. -/
abbrev Vec4 (α : Type) := α × α × α × α

/-- The presence bitfield of the HAIR file header
(`HairStyle::FileHeader::field`).  The struct layout is declared in
`hair_style.hh`, which is not part of the sources; the set of bits is
taken from `HairStyle::update_bitfield` and `HairStyle::has_bounding_box`
in `hair_style.cc`, and from the spec's description of the header. -/
structure BitField where
  has_segments : Bool
  has_vertices : Bool
  has_thickness : Bool
  has_transparency : Bool
  has_color : Bool
  has_tangents : Bool
  has_indices : Bool
  future_extension : Nat
  has_bounding_box : Bool
  deriving DecidableEq, Repr

/-- Modelled from the spec: the fixed-size HAIR file header
(`HairStyle::FileHeader`, declared in the missing `hair_style.hh`).
Field list and order follow spec section 6: 4-byte ASCII signature,
`strand_count : uint32`, `vertex_count : uint32`, presence bitfield,
`default_segment_count : uint32`, `default_thickness : float32`,
`default_transparency : float32`, `default_color : float32[3]`,
bounding box min/max (`float32[3]` each), and a fixed-size null-padded
`information` byte buffer. -/
structure FileHeader (α : Type) where
  signature : List Nat
  strand_count : Nat
  vertex_count : Nat
  bits : BitField
  default_segment_count : Nat
  default_thickness : α
  default_transparency : α
  default_color : Vec3 α
  bounding_box_min : Vec3 α
  bounding_box_max : Vec3 α
  information : List Nat
  deriving DecidableEq, Repr

/-- The in-memory hair asset (`vkhr::HairStyle`): the mutable file header
plus the attribute arrays and the xorshift64 random state seeded at
construction time. -/
structure HairStyle (α : Type) where
  file_header : FileHeader α
  segments : List Nat
  vertices : List (Vec3 α)
  thickness : List α
  transparency : List α
  color : List (Vec3 α)
  tangents : List (Vec3 α)
  indices : List Nat
  seed : Nat
  deriving DecidableEq, Repr

/-- `HairStyle::has_segments` (`segments.size()` as a boolean). -/
def hasSegments {α : Type} (a : HairStyle α) : Bool := !a.segments.isEmpty

/-- `HairStyle::has_vertices`. -/
def hasVertices {α : Type} (a : HairStyle α) : Bool := !a.vertices.isEmpty

/-- `HairStyle::has_thickness`. -/
def hasThickness {α : Type} (a : HairStyle α) : Bool := !a.thickness.isEmpty

/-- `HairStyle::has_transparency`. -/
def hasTransparency {α : Type} (a : HairStyle α) : Bool := !a.transparency.isEmpty

/-- `HairStyle::has_color`. -/
def hasColor {α : Type} (a : HairStyle α) : Bool := !a.color.isEmpty

/-- `HairStyle::has_tangents`. -/
def hasTangents {α : Type} (a : HairStyle α) : Bool := !a.tangents.isEmpty

/-- `HairStyle::has_indices`. -/
def hasIndices {α : Type} (a : HairStyle α) : Bool := !a.indices.isEmpty

/-- `HairStyle::get_strand_count`: `segments.size()` when segments are
present, else the manually set header field. -/
def getStrandCount {α : Type} (a : HairStyle α) : Nat :=
  if a.segments.isEmpty then a.file_header.strand_count else a.segments.length

/-- `HairStyle::get_vertex_count`: `vertices.size()`. -/
def getVertexCount {α : Type} (a : HairStyle α) : Nat := a.vertices.length

/-- `HairStyle::get_segment_count`: `get_vertex_count() - get_strand_count()`
on `unsigned` values (the subtraction wraps modulo `2^32` on underflow). -/
def getSegmentCount {α : Type} (a : HairStyle α) : Nat :=
  (4294967296 + getVertexCount a - getStrandCount a % 4294967296) % 4294967296

/-- `HairStyle::xorshift64`: the 64-bit xorshift step
`x ^= x << 13; x ^= x >> 7; x ^= x << 17` on `uint64_t`.
Shifts are written as multiplication/division by the corresponding powers
of two, with the `uint64_t` truncation made explicit. -/
def xorshift64 (s : Nat) : Nat :=
  let x0 := s % 18446744073709551616
  let x1 := x0 ^^^ (x0 * 8192 % 18446744073709551616)
  let x2 := x1 ^^^ x1 / 128
  x2 ^^^ (x2 * 131072 % 18446744073709551616)

/-- The per-iteration strand draw of `HairStyle::reduce`:
`random = xorshift64(&seed) / (double)UINT64_MAX` followed by
`random_strand = random * strand_offset.size()`, modelled in exact
arithmetic as `⌊x * n / (2^64 - 1)⌋`.  (The source computes this through
`double`, which rounds the 64-bit value to 53 bits of precision; the
exact-arithmetic model keeps the same uniform-draw semantics.) -/
def drawIndex (x n : Nat) : Nat := x * n / 18446744073709551615

/-- The per-strand effective segment counts used by the generation loops
(`generate_thickness`, `generate_tangents`, `generate_indices`): the
`segments` array when present, else `default_segment_count` for each of
`get_strand_count()` strands. -/
def effSegments {α : Type} (a : HairStyle α) : List Nat :=
  if a.segments.isEmpty then
    List.replicate a.file_header.strand_count a.file_header.default_segment_count
  else a.segments

/-- The inner loop of `HairStyle::generate_indices`: for each strand of
`m` segments, push the pairs `(v, v+1)`, ..., then skip the gap between
the strand's last vertex and the next strand's first vertex. -/
def genIndicesAux : List Nat → Nat → List Nat
  | [], _ => []
  | m :: rest, v =>
    ((List.range m).map (fun s => [v + s, v + s + 1])).flatten ++ genIndicesAux rest (v + m + 1)

/-- `HairStyle::generate_indices`. -/
def generateIndices {α : Type} (a : HairStyle α) : HairStyle α :=
  { a with indices := genIndicesAux (effSegments a) 0 }

/-- The strand offset table built at the start of `HairStyle::reduce`:
`strand_offset[i]` is the index of strand `i`'s first vertex.  With
segments present this is the manual prefix sum over `segments[j] + 1`;
`acc` carries the running sum. -/
def strandOffsets : List Nat → Nat → List Nat
  | [], _ => []
  | m :: rest, acc => acc :: strandOffsets rest (acc + m + 1)

/-- The working set of `HairStyle::reduce`, pairing each remaining
strand's segment count with its `strand_offset` entry.  The source keeps
`segments` and `strand_offset` as two vectors that are swap-popped at the
same index in every iteration, which is modelled as one list of pairs.
Without segments, the offsets are `i * (default_segment_count + 1)` (the
`std::fill`/`std::partial_sum` branch) and the segment count of every
strand is the default. -/
def initPairs {α : Type} (a : HairStyle α) : List (Nat × Nat) :=
  if a.segments.isEmpty then
    (List.range a.file_header.strand_count).map
      (fun i => (a.file_header.default_segment_count,
                 i * (a.file_header.default_segment_count + 1)))
  else a.segments.zip (strandOffsets a.segments 0)

/-- `std::swap(l[i], l.back()); l.pop_back();` — swap-to-back removal. -/
def swapPop {β : Type} (l : List β) (i : Nat) (dflt : β) : List β :=
  (l.set i (l.getLastD dflt)).dropLast

/-- The sub-list `[s, e)` of `l`, as produced by
`std::copy(l.begin() + s, l.begin() + e, back_inserter(out))`. -/
def copyRange {β : Type} (l : List β) (s e : Nat) : List β := (l.drop s).take (e - s)

/-- The mutable state of the sampling loop in `HairStyle::reduce`: the
xorshift seed, the working set of remaining strands, the `reduced_*`
output arrays, and an `ok` flag recording that every random strand index
drawn so far was inside the working set (an out-of-range index — possible
only when a draw returns `2^64 - 1` — would index `std::vector`s out of
bounds in the source, which is undefined behavior). -/
structure ReduceState (α : Type) where
  seed : Nat
  working : List (Nat × Nat)
  redSegments : List Nat
  redVertices : List (Vec3 α)
  redThickness : List α
  redTangents : List (Vec3 α)
  redTransparency : List α
  redColor : List (Vec3 α)
  ok : Bool
  deriving DecidableEq, Repr

/-- The random strand index drawn at the top of each `reduce` iteration. -/
def randomStrand {α : Type} (st : ReduceState α) : Nat :=
  drawIndex (xorshift64 st.seed) st.working.length

/-- One iteration of the sampling loop of `HairStyle::reduce`: draw a
random strand from the working set, record its segment count, copy its
full vertex-aligned sub-range out of every present attribute array of `a`,
and remove it from the working set by swap-to-back. -/
def reduceStep {α : Type} (a : HairStyle α) (st : ReduceState α) : ReduceState α :=
  let x := xorshift64 st.seed
  let r := randomStrand st
  let p := st.working.getD r (0, 0)
  let aStart := p.2
  let aEnd := p.2 + p.1 + 1
  { seed := x
    working := swapPop st.working r (0, 0)
    redSegments := st.redSegments ++ [p.1]
    redVertices :=
      st.redVertices ++ (if hasVertices a then copyRange a.vertices aStart aEnd else [])
    redThickness :=
      st.redThickness ++ (if hasThickness a then copyRange a.thickness aStart aEnd else [])
    redTangents :=
      st.redTangents ++ (if hasTangents a then copyRange a.tangents aStart aEnd else [])
    redTransparency :=
      st.redTransparency ++ (if hasTransparency a then copyRange a.transparency aStart aEnd else [])
    redColor :=
      st.redColor ++ (if hasColor a then copyRange a.color aStart aEnd else [])
    ok := st.ok && decide (r < st.working.length) }

/-- The sampling loop `while (--strands_left && strand_offset.size() != 0)`
of `HairStyle::reduce`.  `strands_left` is `unsigned`, so the
pre-decrement wraps modulo `2^32` (in particular `--0` yields
`2^32 - 1`, which is truthy).  The loop is driven by fuel that `reduce`
instantiates with the working-set size; each iteration removes exactly
one working-set element, so the fuel never runs out before the loop's
own exit condition fires. -/
def reduceLoop {α : Type} (a : HairStyle α) : Nat → Nat → ReduceState α → ReduceState α
  | 0, _, st => st
  | fuel + 1, strandsLeft, st =>
    let s := (strandsLeft + 4294967295) % 4294967296
    if s ≠ 0 ∧ st.working ≠ [] then reduceLoop a fuel s (reduceStep a st) else st

/-- `HairStyle::reduce` up to (and including) the sampling loop: computes
`strands_left = get_strand_count() - ceil(get_strand_count() * ratio)`
(the float `ratio` modelled as an exact rational) and runs the loop from
the initial working set. -/
def reduceRun {α : Type} (a : HairStyle α) (ratio : ℚ) : ReduceState α :=
  let n := getStrandCount a
  let strandsLeft := n - (Int.toNat ⌈(n : ℚ) * ratio⌉)
  reduceLoop a (initPairs a).length strandsLeft
    { seed := a.seed, working := initPairs a, redSegments := [], redVertices := []
      redThickness := [], redTangents := [], redTransparency := [], redColor := []
      ok := true }

/-- `HairStyle::reduce`: run the sampling loop, install the reduced
segments and vertices, regenerate the index list from the new layout,
then install the remaining reduced attribute arrays. -/
def reduce {α : Type} (a : HairStyle α) (ratio : ℚ) : HairStyle α :=
  let st := reduceRun a ratio
  let a1 := { a with segments := st.redSegments, vertices := st.redVertices, seed := st.seed }
  let a2 := generateIndices a1
  { a2 with thickness := st.redThickness, tangents := st.redTangents
            transparency := st.redTransparency, color := st.redColor }

/-- `HairStyle::shuffle`: `reduce(1.0f)`. -/
def shuffle {α : Type} (a : HairStyle α) : HairStyle α := reduce a 1

/-- The xorshift seed is invariant under the sampling loop when it is 0:
`xorshift64` then returns and stores 0 on every iteration. -/
theorem reduceLoop_seed_zero {α : Type} (a : HairStyle α) :
    ∀ (fuel s : Nat) (st : ReduceState α), st.seed = 0 →
      (reduceLoop a fuel s st).seed = 0 := by
  intro fuel
  induction fuel with
  | zero => intro s st h; simpa [reduceLoop] using h
  | succ fuel ih =>
    intro s st h
    simp only [reduceLoop]
    split
    · exact ih _ _ (by simp [reduceStep, h, xorshift64])
    · exact h

/-- Claim C10: the xorshift64 pseudo-random generator has 0 as a fixed
point: from state 0 it returns 0 and stores 0 back, so every draw in a
`reduce` on an asset whose seed is 0 computes `random_strand = 0` and
selects the strand slot at index 0 of the working set: the drawn index is
0 whenever the state is 0, and the state stays 0 through every iteration
of the sampling loop (and hence through `reduce` itself). -/
theorem claim_C10_xorshift_zero_fixed_point :
    xorshift64 0 = 0 ∧
    (∀ st : ReduceState Nat, st.seed = 0 → randomStrand st = 0) ∧
    (∀ (a : HairStyle Nat) (fuel s : Nat) (st : ReduceState Nat), st.seed = 0 →
      (reduceLoop a fuel s st).seed = 0) ∧
    (∀ (a : HairStyle Nat) (ratio : ℚ), a.seed = 0 → (reduce a ratio).seed = 0) := by
  refine ⟨by decide, ?_, ?_, ?_⟩
  · intro st h
    simp [randomStrand, h, xorshift64, drawIndex]
  · intro a fuel s st h
    exact reduceLoop_seed_zero a fuel s st h
  · intro a ratio h
    simp only [reduce, generateIndices, reduceRun]
    exact reduceLoop_seed_zero a _ _ _ (by simpa using h)

/-- Concrete instantiation of claim C10: on an asset with two strands and
seed 0, the drawn strand index is 0 and the seed after `reduce` is 0. -/
theorem claim_C10_xorshift_zero_fixed_point_witness :
    randomStrand (α := Nat)
      { seed := 0, working := [(1, 0), (1, 2)], redSegments := [], redVertices := []
        redThickness := [], redTangents := [], redTransparency := [], redColor := []
        ok := true } = 0 ∧
    (reduce
      { file_header :=
          { signature := [72, 65, 73, 82], strand_count := 2, vertex_count := 4
            bits :=
              { has_segments := true, has_vertices := true, has_thickness := false
                has_transparency := false, has_color := false, has_tangents := false
                has_indices := false, future_extension := 0, has_bounding_box := false }
            default_segment_count := 1, default_thickness := 0, default_transparency := 0
            default_color := (0, 0, 0), bounding_box_min := (0, 0, 0)
            bounding_box_max := (0, 0, 0), information := [] }
        segments := [1, 1]
        vertices := [(0, 0, 0), (1, 1, 1), (2, 2, 2), (3, 3, 3)]
        thickness := [], transparency := [], color := [], tangents := [], indices := []
        seed := 0 } (1 / 2)).seed = 0 := by
  exact ⟨claim_C10_xorshift_zero_fixed_point.2.1 _ rfl,
         claim_C10_xorshift_zero_fixed_point.2.2.2 _ _ rfl⟩

/-- Swap-to-back removal shortens a list by one element. -/
theorem swapPop_length {β : Type} (l : List β) (i : Nat) (d : β) :
    (swapPop l i d).length = l.length - 1 := by
  simp [swapPop]

/-- Each iteration of the sampling loop removes exactly one strand from
the working set. -/
theorem reduceStep_working_length {α : Type} (a : HairStyle α) (st : ReduceState α) :
    (reduceStep a st).working.length = st.working.length - 1 := by
  simp [reduceStep, swapPop_length]

/-- Each iteration of the sampling loop pushes exactly one entry onto
`reduced_segments`. -/
theorem reduceStep_redSegments_length {α : Type} (a : HairStyle α) (st : ReduceState α) :
    (reduceStep a st).redSegments.length = st.redSegments.length + 1 := by
  simp [reduceStep]

/-- Exact iteration count of `while (--strands_left && ...)`: starting
from the `unsigned` counter `s` with a working set of `fuel` strands, the
loop body runs `min ((s + 2^32 - 1) % 2^32) fuel` times, once per entry
pushed onto `reduced_segments`.  (`(s + 2^32 - 1) % 2^32` is the wrapped
pre-decrement: `s - 1` for `s ≥ 1`, and `2^32 - 1` for `s = 0`.) -/
theorem reduceLoop_redSegments_length {α : Type} (a : HairStyle α) :
    ∀ (fuel s : Nat) (st : ReduceState α), st.working.length = fuel →
      (reduceLoop a fuel s st).redSegments.length =
        st.redSegments.length + min ((s + 4294967295) % 4294967296) fuel := by
  intro fuel
  induction fuel with
  | zero => intro s st _; simp [reduceLoop]
  | succ fuel ih =>
    intro s st hlen
    have hne : st.working ≠ [] := by
      intro h
      rw [h] at hlen
      simp at hlen
    by_cases hs : (s + 4294967295) % 4294967296 = 0
    · simp [reduceLoop, hs]
    · have hrec := ih ((s + 4294967295) % 4294967296) (reduceStep a st)
        (by simp [reduceStep_working_length, hlen])
      rw [reduceLoop]
      simp only [hs, hne, ne_eq, not_false_iff, and_self, if_true]
      rw [hrec, reduceStep_redSegments_length]
      have hlt : (s + 4294967295) % 4294967296 < 4294967296 := Nat.mod_lt _ (by omega)
      omega

/-- `strandOffsets` yields one offset per strand. -/
theorem strandOffsets_length (l : List Nat) : ∀ acc, (strandOffsets l acc).length = l.length := by
  induction l with
  | nil => intro acc; simp [strandOffsets]
  | cons m rest ih => intro acc; simp [strandOffsets, ih]

/-- The initial working set of `reduce` has one entry per strand. -/
theorem initPairs_length {α : Type} (a : HairStyle α) :
    (initPairs a).length = getStrandCount a := by
  by_cases h : a.segments.isEmpty
  · simp [initPairs, getStrandCount, h]
  · simp [initPairs, getStrandCount, h, strandOffsets_length]

/-- A file header with the HAIR signature, zeroed defaults, and an empty
bitfield, used to build concrete test assets. -/
def natHeader : FileHeader Nat :=
  { signature := [72, 65, 73, 82], strand_count := 0, vertex_count := 0
    bits :=
      { has_segments := false, has_vertices := false, has_thickness := false
        has_transparency := false, has_color := false, has_tangents := false
        has_indices := false, future_extension := 0, has_bounding_box := false }
    default_segment_count := 0, default_thickness := 0, default_transparency := 0
    default_color := (0, 0, 0), bounding_box_min := (0, 0, 0)
    bounding_box_max := (0, 0, 0), information := [] }

/-- A concrete asset over `Nat` scalars with the given segment counts,
vertices and random seed, and no other optional arrays. -/
def mkAssetN (segs : List Nat) (verts : List (Vec3 Nat)) (seed : Nat) : HairStyle Nat :=
  { file_header :=
      { natHeader with strand_count := segs.length, vertex_count := verts.length }
    segments := segs, vertices := verts, thickness := [], transparency := []
    color := [], tangents := [], indices := [], seed := seed }

/-- After `reduce`, the asset's segment array is the loop's
`reduced_segments` output. -/
theorem reduce_segments_eq {α : Type} (a : HairStyle α) (ratio : ℚ) :
    (reduce a ratio).segments = (reduceRun a ratio).redSegments := by
  simp [reduce, generateIndices]

/-- Claim C4, amended: for `keep_ratio` in (0,1) the number of surviving
strands is not `strand_count - ceil(strand_count * keep_ratio)` but one
less: with `k := strand_count - ceil(strand_count * keep_ratio)`, the
decrement-then-test loop performs `k - 1` iterations when `k ≥ 1`, and
when `k = 0` the `unsigned` pre-decrement wraps around so that all
strands survive. -/
theorem claim_C4_reduce_strand_count (a : HairStyle Nat) (ratio : ℚ)
    (h0 : 0 < ratio) (h1 : ratio < 1) (hn : getStrandCount a < 4294967296) :
    (reduce a ratio).segments.length =
      if getStrandCount a - (⌈(getStrandCount a : ℚ) * ratio⌉).toNat = 0
      then getStrandCount a
      else getStrandCount a - (⌈(getStrandCount a : ℚ) * ratio⌉).toNat - 1 := by
  rw [reduce_segments_eq]
  simp only [reduceRun]
  have h := reduceLoop_redSegments_length a ((initPairs a).length)
    (getStrandCount a - (⌈(getStrandCount a : ℚ) * ratio⌉).toNat)
    { seed := a.seed, working := initPairs a, redSegments := [], redVertices := []
      redThickness := [], redTangents := [], redTransparency := [], redColor := []
      ok := true } rfl
  rw [h, initPairs_length]
  set n := getStrandCount a with hn_def
  set x := (⌈(n : ℚ) * ratio⌉).toNat with hx_def
  have hkn : n - x ≤ n := Nat.sub_le _ _
  by_cases hk : n - x = 0
  · rw [hk]
    simp only [List.length_nil, Nat.zero_add, if_true, eq_self_iff_true]
    have : (0 + 4294967295) % 4294967296 = 4294967295 := by norm_num
    rw [this, Nat.min_eq_right (by omega)]
  · have hmod : (n - x + 4294967295) % 4294967296 = n - x - 1 := by omega
    rw [hmod, Nat.min_eq_left (by omega)]
    simp [hk]

/-- Counterexample to claim C4 as stated: a 3-strand asset reduced with
`keep_ratio = 1/2` has `strand_count - ceil(strand_count * ratio) = 1`,
yet zero strands survive (the loop `while (--strands_left && ...)` tests
the decremented counter, so it runs `strands_left - 1` times). -/
theorem claim_C4_counterexample :
    ((0:ℚ) < 1/2 ∧ ((1:ℚ)/2) < 1) ∧
    getStrandCount (mkAssetN [1, 1, 1]
      [(0,0,0), (1,0,0), (2,0,0), (3,0,0), (4,0,0), (5,0,0)] 7) = 3 ∧
    getStrandCount (mkAssetN [1, 1, 1]
        [(0,0,0), (1,0,0), (2,0,0), (3,0,0), (4,0,0), (5,0,0)] 7) -
      (⌈(getStrandCount (mkAssetN [1, 1, 1]
        [(0,0,0), (1,0,0), (2,0,0), (3,0,0), (4,0,0), (5,0,0)] 7) : ℚ) * (1/2)⌉).toNat = 1 ∧
    (reduce (mkAssetN [1, 1, 1]
      [(0,0,0), (1,0,0), (2,0,0), (3,0,0), (4,0,0), (5,0,0)] 7) (1/2)).segments.length = 0 := by
  have h3 : getStrandCount (mkAssetN [1, 1, 1]
      [(0,0,0), (1,0,0), (2,0,0), (3,0,0), (4,0,0), (5,0,0)] 7) = 3 := by decide
  have hc : (⌈(getStrandCount (mkAssetN [1, 1, 1]
      [(0,0,0), (1,0,0), (2,0,0), (3,0,0), (4,0,0), (5,0,0)] 7) : ℚ) * (1/2)⌉).toNat = 2 := by
    rw [h3]
    have he : ((3:ℕ):ℚ) * (1/2) = 3/2 := by push_cast; ring
    rw [he, show ⌈(3:ℚ)/2⌉ = 2 from by rw [Int.ceil_eq_iff] <;> norm_num]
    rfl
  refine ⟨by norm_num, h3, by rw [hc, h3], ?_⟩
  rw [reduce_segments_eq]
  simp only [reduceRun]
  rw [hc, h3]
  decide

/-- Concrete instantiation of (amended) claim C4: reducing a 4-strand
asset with `keep_ratio = 1/4` leaves `4 - ceil(4 * 1/4) - 1 = 2` strands. -/
theorem claim_C4_reduce_strand_count_witness :
    ((0:ℚ) < 1/4 ∧ ((1:ℚ)/4) < 1 ∧
      getStrandCount (mkAssetN [1, 1, 1, 1]
        [(0,0,0), (1,0,0), (2,0,0), (3,0,0), (4,0,0), (5,0,0), (6,0,0), (7,0,0)] 1)
        < 4294967296) ∧
    (reduce (mkAssetN [1, 1, 1, 1]
      [(0,0,0), (1,0,0), (2,0,0), (3,0,0), (4,0,0), (5,0,0), (6,0,0), (7,0,0)] 1)
      (1/4)).segments.length = 2 := by
  refine ⟨⟨by norm_num, by norm_num, by decide⟩, ?_⟩
  rw [claim_C4_reduce_strand_count _ _ (by norm_num) (by norm_num) (by decide)]
  have h4 : getStrandCount (mkAssetN [1, 1, 1, 1]
      [(0,0,0), (1,0,0), (2,0,0), (3,0,0), (4,0,0), (5,0,0), (6,0,0), (7,0,0)] 1) = 4 := by
    decide
  rw [h4]
  have hc : (⌈((4:ℕ):ℚ) * (1/4)⌉).toNat = 1 := by
    have he : ((4:ℕ):ℚ) * (1/4) = 1 := by push_cast; ring
    rw [he, Int.ceil_one]
    rfl
  rw [hc]
  norm_num

/-- Claim C5, amended: `reduce(1.0)` (the `shuffle()` case) does not drop
one strand.  `strands_left` computes to 0, the `unsigned` pre-decrement
in `while (--strands_left && ...)` wraps to `2^32 - 1`, and the loop runs
until the working set is exhausted, so all strands survive and the call
is a pure reshuffle.  (The one-strand-fewer behavior instead belongs to
ratios with `strands_left ≥ 1`, where `strands_left - 1` strands
survive.) -/
theorem claim_C5_shuffle_keeps_all_strands (a : HairStyle Nat)
    (hn : getStrandCount a < 4294967296) :
    (reduce a 1).segments.length = getStrandCount a := by
  rw [reduce_segments_eq]
  simp only [reduceRun]
  have h := reduceLoop_redSegments_length a ((initPairs a).length)
    (getStrandCount a - (⌈(getStrandCount a : ℚ) * 1⌉).toNat)
    { seed := a.seed, working := initPairs a, redSegments := [], redVertices := []
      redThickness := [], redTangents := [], redTransparency := [], redColor := []
      ok := true } rfl
  rw [h, initPairs_length]
  have hceil : (⌈(getStrandCount a : ℚ) * 1⌉).toNat = getStrandCount a := by
    rw [mul_one, Int.ceil_natCast]
    simp
  rw [hceil, Nat.sub_self]
  have hmod : (0 + 4294967295) % 4294967296 = 4294967295 := by norm_num
  rw [hmod, Nat.min_eq_right (by omega)]
  simp

/-- Counterexample to claim C5 as stated: `reduce(1.0)` on a 2-strand
asset returns an asset with 2 strands, not one strand fewer.  With
`strands_left = 0` the `unsigned` pre-decrement wraps to `2^32 - 1`, so
the loop keeps running until the working set is empty and every strand
is copied to the output. -/
theorem claim_C5_counterexample :
    getStrandCount (mkAssetN [1, 1] [(0,0,0), (1,0,0), (2,0,0), (3,0,0)] 1) = 2 ∧
    (reduce (mkAssetN [1, 1] [(0,0,0), (1,0,0), (2,0,0), (3,0,0)] 1) 1).segments.length = 2 ∧
    (reduce (mkAssetN [1, 1] [(0,0,0), (1,0,0), (2,0,0), (3,0,0)] 1) 1).segments.length ≠
      getStrandCount (mkAssetN [1, 1] [(0,0,0), (1,0,0), (2,0,0), (3,0,0)] 1) - 1 := by
  have hlen : (reduce (mkAssetN [1, 1] [(0,0,0), (1,0,0), (2,0,0), (3,0,0)] 1) 1).segments.length
      = 2 := by
    rw [reduce_segments_eq]
    simp only [reduceRun]
    have hceil : (⌈(getStrandCount
        (mkAssetN [1, 1] [(0,0,0), (1,0,0), (2,0,0), (3,0,0)] 1) : ℚ) * 1⌉).toNat =
        getStrandCount (mkAssetN [1, 1] [(0,0,0), (1,0,0), (2,0,0), (3,0,0)] 1) := by
      rw [mul_one, Int.ceil_natCast]
      simp
    rw [hceil, Nat.sub_self]
    decide
  exact ⟨by decide, hlen, by rw [hlen]; decide⟩

/-- Concrete instantiation of (amended) claim C5: a 3-strand asset
shuffled with ratio 1.0 still has 3 strands afterwards. -/
theorem claim_C5_shuffle_keeps_all_strands_witness :
    getStrandCount (mkAssetN [2, 1, 1]
      [(0,0,0), (1,0,0), (2,0,0), (3,0,0), (4,0,0), (5,0,0), (6,0,0)] 3) < 4294967296 ∧
    (reduce (mkAssetN [2, 1, 1]
      [(0,0,0), (1,0,0), (2,0,0), (3,0,0), (4,0,0), (5,0,0), (6,0,0)] 3) 1).segments.length
      = 3 := by
  refine ⟨by decide, ?_⟩
  rw [claim_C5_shuffle_keeps_all_strands _ (by decide)]
  decide

/-- Swap-to-back removal only keeps elements of the original list. -/
theorem mem_swapPop {β : Type} {l : List β} {i : Nat} {d : β} {x : β}
    (hx : x ∈ swapPop l i d) (hl : l ≠ []) : x ∈ l := by
  have h1 : x ∈ l.set i (l.getLastD d) := List.dropLast_subset _ hx
  rcases List.mem_or_eq_of_mem_set h1 with h | h
  · exact h
  · subst h
    have hgl : l.getLastD d = l.getLast hl := by
      cases l with
      | nil => simp at hl
      | cons a t => simp [List.getLastD_eq_getLast?, List.getLast?_eq_getLast]
    rw [hgl]
    exact List.getLast_mem hl

/-- The `ok` flag of the sampling loop is monotone: if the final state is
`ok` then the initial state already was. -/
theorem reduceLoop_ok_mono {α : Type} (a : HairStyle α) :
    ∀ (fuel s : Nat) (st : ReduceState α),
      (reduceLoop a fuel s st).ok = true → st.ok = true := by
  intro fuel
  induction fuel with
  | zero => intro s st h; simpa [reduceLoop] using h
  | succ fuel ih =>
    intro s st h
    rw [reduceLoop] at h
    split at h
    · have hstep := ih _ _ h
      simp only [reduceStep, Bool.and_eq_true] at hstep
      exact hstep.1
    · exact h

/-- If the final state of the sampling loop is `ok`, every drawn index
was in range, and one full vertex-aligned sub-range of every present
attribute array was copied per iteration: the loop's outputs extend the
initial outputs by a list of picked `(segment count, offset)` pairs, all
taken from the working set, together with their attribute sub-ranges. -/
theorem reduceLoop_picks {α : Type} (a : HairStyle α) :
    ∀ (fuel s : Nat) (st : ReduceState α) (S : List (Nat × Nat)),
      st.working.length = fuel →
      (∀ p ∈ st.working, p ∈ S) →
      (reduceLoop a fuel s st).ok = true →
      ∃ picks : List (Nat × Nat),
        (∀ p ∈ picks, p ∈ S) ∧
        (reduceLoop a fuel s st).redSegments = st.redSegments ++ picks.map Prod.fst ∧
        (reduceLoop a fuel s st).redVertices = st.redVertices ++
          (picks.map (fun p =>
            if hasVertices a then copyRange a.vertices p.2 (p.2 + p.1 + 1) else [])).flatten ∧
        (reduceLoop a fuel s st).redThickness = st.redThickness ++
          (picks.map (fun p =>
            if hasThickness a then copyRange a.thickness p.2 (p.2 + p.1 + 1) else [])).flatten ∧
        (reduceLoop a fuel s st).redTangents = st.redTangents ++
          (picks.map (fun p =>
            if hasTangents a then copyRange a.tangents p.2 (p.2 + p.1 + 1) else [])).flatten ∧
        (reduceLoop a fuel s st).redTransparency = st.redTransparency ++
          (picks.map (fun p =>
            if hasTransparency a then copyRange a.transparency p.2 (p.2 + p.1 + 1) else [])).flatten ∧
        (reduceLoop a fuel s st).redColor = st.redColor ++
          (picks.map (fun p =>
            if hasColor a then copyRange a.color p.2 (p.2 + p.1 + 1) else [])).flatten := by
  intro fuel
  induction fuel with
  | zero =>
    intro s st S _ _ _
    exact ⟨[], by simp, by simp [reduceLoop], by simp [reduceLoop], by simp [reduceLoop],
           by simp [reduceLoop], by simp [reduceLoop], by simp [reduceLoop]⟩
  | succ fuel ih =>
    intro s st S hlen hsub hok
    rw [reduceLoop] at hok ⊢
    split at hok
    case isTrue hcond =>
      rw [if_pos hcond]
      have hstepok := reduceLoop_ok_mono a _ _ _ hok
      simp only [reduceStep, Bool.and_eq_true, decide_eq_true_eq] at hstepok
      obtain ⟨hok0, hrlt⟩ := hstepok
      have hpmem : st.working.getD (randomStrand st) (0, 0) ∈ st.working := by
        rw [List.getD_eq_getElem _ _ hrlt]
        exact List.getElem_mem hrlt
      have hpS : st.working.getD (randomStrand st) (0, 0) ∈ S := hsub _ hpmem
      have hsub2 : ∀ p ∈ (reduceStep a st).working, p ∈ S := by
        intro p hp
        simp only [reduceStep] at hp
        exact hsub _ (mem_swapPop hp hcond.2)
      have hlen2 : (reduceStep a st).working.length = fuel := by
        rw [reduceStep_working_length, hlen]
        omega
      obtain ⟨picks, hPS, hseg, hver, hthi, htan, htra, hcol⟩ :=
        ih _ (reduceStep a st) S hlen2 hsub2 hok
      refine ⟨st.working.getD (randomStrand st) (0, 0) :: picks, ?_, ?_, ?_, ?_, ?_, ?_, ?_⟩
      · intro p hp
        rcases List.mem_cons.mp hp with h | h
        · subst h; exact hpS
        · exact hPS _ h
      · rw [hseg]; simp [reduceStep, List.append_assoc]
      · rw [hver]; simp [reduceStep, List.append_assoc]
      · rw [hthi]; simp [reduceStep, List.append_assoc]
      · rw [htan]; simp [reduceStep, List.append_assoc]
      · rw [htra]; simp [reduceStep, List.append_assoc]
      · rw [hcol]; simp [reduceStep, List.append_assoc]
    case isFalse hcond =>
      rw [if_neg hcond]
      exact ⟨[], by simp, by simp, by simp, by simp, by simp, by simp, by simp⟩

/-- After `reduce`, the asset's vertex array is the loop's
`reduced_vertices` output. -/
theorem reduce_vertices_eq {α : Type} (a : HairStyle α) (ratio : ℚ) :
    (reduce a ratio).vertices = (reduceRun a ratio).redVertices := by
  simp [reduce, generateIndices]

/-- After `reduce`, the asset's thickness array is the loop's
`reduced_thickness` output. -/
theorem reduce_thickness_eq {α : Type} (a : HairStyle α) (ratio : ℚ) :
    (reduce a ratio).thickness = (reduceRun a ratio).redThickness := by
  simp [reduce, generateIndices]

/-- After `reduce`, the asset's tangent array is the loop's
`reduced_tangents` output. -/
theorem reduce_tangents_eq {α : Type} (a : HairStyle α) (ratio : ℚ) :
    (reduce a ratio).tangents = (reduceRun a ratio).redTangents := by
  simp [reduce, generateIndices]

/-- After `reduce`, the asset's transparency array is the loop's
`reduced_transparency` output. -/
theorem reduce_transparency_eq {α : Type} (a : HairStyle α) (ratio : ℚ) :
    (reduce a ratio).transparency = (reduceRun a ratio).redTransparency := by
  simp [reduce, generateIndices]

/-- After `reduce`, the asset's color array is the loop's
`reduced_color` output. -/
theorem reduce_color_eq {α : Type} (a : HairStyle α) (ratio : ℚ) :
    (reduce a ratio).color = (reduceRun a ratio).redColor := by
  simp [reduce, generateIndices]

/-- An in-bounds range copy of `n` elements yields `n` elements. -/
theorem copyRange_length {β : Type} (l : List β) (s n : Nat) (h : s + n ≤ l.length) :
    (copyRange l s (s + n)).length = n := by
  simp only [copyRange, List.length_take, List.length_drop]
  omega

/-- Flattening in-bounds range copies of `segment count + 1` vertices per
picked strand yields `Σ (segment count + 1)` elements. -/
theorem flatten_copyRange_length {β : Type} (l : List β) (picks : List (Nat × Nat))
    (hb : ∀ p ∈ picks, p.2 + p.1 + 1 ≤ l.length) :
    ((picks.map (fun p => copyRange l p.2 (p.2 + p.1 + 1))).flatten).length =
      (picks.map (fun p => p.1 + 1)).sum := by
  rw [List.length_flatten, List.map_map]
  apply congrArg
  apply List.map_congr_left
  intro p hp
  have hble := hb p hp
  simp only [Function.comp]
  have he : p.2 + p.1 + 1 = p.2 + (p.1 + 1) := by omega
  rw [he, copyRange_length _ _ _ (by omega)]

/-- Claim C6: for any ratio in (0,1), on a valid asset (consistent strand
offset table, per-vertex attribute arrays of full length) whose sampling
run draws only in-range indices, `reduce` produces output arrays that are
concatenations of whole per-strand sub-ranges of the original arrays:
there is a list of picked `(segment count, offset)` pairs — all entries
of the original strand table, so only the cross-strand order is
randomized — such that the output segment array lists exactly their
segment counts, each vertex-aligned array that was present is the
concatenation of the corresponding contiguous original sub-ranges in
original intra-strand order, and each such array has length
`Σ (segments[i] + 1)` over the surviving strands. -/
theorem claim_C6_reduce_preserves_strand_alignment (a : HairStyle Nat) (ratio : ℚ)
    (h0 : 0 < ratio) (h1 : ratio < 1)
    (hwf : ∀ p ∈ initPairs a, p.2 + p.1 + 1 ≤ a.vertices.length)
    (hv : a.vertices ≠ [])
    (hth : a.thickness ≠ [] → a.thickness.length = a.vertices.length)
    (hta : a.tangents ≠ [] → a.tangents.length = a.vertices.length)
    (htr : a.transparency ≠ [] → a.transparency.length = a.vertices.length)
    (hco : a.color ≠ [] → a.color.length = a.vertices.length)
    (hok : (reduceRun a ratio).ok = true) :
    ∃ picks : List (Nat × Nat),
      (∀ p ∈ picks, p ∈ initPairs a) ∧
      (reduce a ratio).segments = picks.map Prod.fst ∧
      ((reduce a ratio).vertices =
        (picks.map (fun p => copyRange a.vertices p.2 (p.2 + p.1 + 1))).flatten ∧
       (reduce a ratio).vertices.length =
        ((reduce a ratio).segments.map (fun m => m + 1)).sum) ∧
      (a.thickness ≠ [] →
        (reduce a ratio).thickness =
          (picks.map (fun p => copyRange a.thickness p.2 (p.2 + p.1 + 1))).flatten ∧
        (reduce a ratio).thickness.length =
          ((reduce a ratio).segments.map (fun m => m + 1)).sum) ∧
      (a.tangents ≠ [] →
        (reduce a ratio).tangents =
          (picks.map (fun p => copyRange a.tangents p.2 (p.2 + p.1 + 1))).flatten ∧
        (reduce a ratio).tangents.length =
          ((reduce a ratio).segments.map (fun m => m + 1)).sum) ∧
      (a.transparency ≠ [] →
        (reduce a ratio).transparency =
          (picks.map (fun p => copyRange a.transparency p.2 (p.2 + p.1 + 1))).flatten ∧
        (reduce a ratio).transparency.length =
          ((reduce a ratio).segments.map (fun m => m + 1)).sum) ∧
      (a.color ≠ [] →
        (reduce a ratio).color =
          (picks.map (fun p => copyRange a.color p.2 (p.2 + p.1 + 1))).flatten ∧
        (reduce a ratio).color.length =
          ((reduce a ratio).segments.map (fun m => m + 1)).sum) := by
  simp only [reduceRun] at hok
  obtain ⟨picks, hPS, hseg, hver, hthi, htan, htra, hcol⟩ :=
    reduceLoop_picks a ((initPairs a).length)
      (getStrandCount a - (⌈(getStrandCount a : ℚ) * ratio⌉).toNat)
      { seed := a.seed, working := initPairs a, redSegments := [], redVertices := []
        redThickness := [], redTangents := [], redTransparency := [], redColor := []
        ok := true } (initPairs a) rfl (fun _ hp => hp) hok
  have hbnd : ∀ p ∈ picks, p.2 + p.1 + 1 ≤ a.vertices.length := fun p hp => hwf p (hPS p hp)
  have hsegs : (reduce a ratio).segments = picks.map Prod.fst := by
    rw [reduce_segments_eq]
    simp only [reduceRun]
    rw [hseg]
    simp
  refine ⟨picks, hPS, hsegs, ?_, ?_, ?_, ?_, ?_⟩
  · have hV : hasVertices a = true := by simp [hasVertices, hv]
    have hvv : (reduce a ratio).vertices =
        (picks.map (fun p => copyRange a.vertices p.2 (p.2 + p.1 + 1))).flatten := by
      rw [reduce_vertices_eq]
      simp only [reduceRun]
      rw [hver]
      simp [hV]
    refine ⟨hvv, ?_⟩
    rw [hvv, hsegs, List.map_map, flatten_copyRange_length _ _ hbnd]
    rfl
  · intro hne
    have hT : hasThickness a = true := by simp [hasThickness, hne]
    have hvv : (reduce a ratio).thickness =
        (picks.map (fun p => copyRange a.thickness p.2 (p.2 + p.1 + 1))).flatten := by
      rw [reduce_thickness_eq]
      simp only [reduceRun]
      rw [hthi]
      simp [hT]
    refine ⟨hvv, ?_⟩
    rw [hvv, hsegs, List.map_map,
        flatten_copyRange_length _ _ (fun p hp => by rw [hth hne]; exact hbnd p hp)]
    rfl
  · intro hne
    have hT : hasTangents a = true := by simp [hasTangents, hne]
    have hvv : (reduce a ratio).tangents =
        (picks.map (fun p => copyRange a.tangents p.2 (p.2 + p.1 + 1))).flatten := by
      rw [reduce_tangents_eq]
      simp only [reduceRun]
      rw [htan]
      simp [hT]
    refine ⟨hvv, ?_⟩
    rw [hvv, hsegs, List.map_map,
        flatten_copyRange_length _ _ (fun p hp => by rw [hta hne]; exact hbnd p hp)]
    rfl
  · intro hne
    have hT : hasTransparency a = true := by simp [hasTransparency, hne]
    have hvv : (reduce a ratio).transparency =
        (picks.map (fun p => copyRange a.transparency p.2 (p.2 + p.1 + 1))).flatten := by
      rw [reduce_transparency_eq]
      simp only [reduceRun]
      rw [htra]
      simp [hT]
    refine ⟨hvv, ?_⟩
    rw [hvv, hsegs, List.map_map,
        flatten_copyRange_length _ _ (fun p hp => by rw [htr hne]; exact hbnd p hp)]
    rfl
  · intro hne
    have hT : hasColor a = true := by simp [hasColor, hne]
    have hvv : (reduce a ratio).color =
        (picks.map (fun p => copyRange a.color p.2 (p.2 + p.1 + 1))).flatten := by
      rw [reduce_color_eq]
      simp only [reduceRun]
      rw [hcol]
      simp [hT]
    refine ⟨hvv, ?_⟩
    rw [hvv, hsegs, List.map_map,
        flatten_copyRange_length _ _ (fun p hp => by rw [hco hne]; exact hbnd p hp)]
    rfl

/-- A concrete 4-strand asset with a thickness array, used to instantiate
claim C6. -/
def assetC6 : HairStyle Nat :=
  { mkAssetN [1, 1, 1, 1]
      [(0,0,0), (1,0,0), (2,0,0), (3,0,0), (4,0,0), (5,0,0), (6,0,0), (7,0,0)] 1 with
    thickness := [10, 0, 11, 0, 12, 0, 13, 0] }

/-- Concrete instantiation of claim C6 on `assetC6` with ratio 1/2. -/
theorem claim_C6_reduce_preserves_strand_alignment_witness :
    (reduceRun assetC6 (1/2)).ok = true ∧
    (∃ picks : List (Nat × Nat),
      (∀ p ∈ picks, p ∈ initPairs assetC6) ∧
      (reduce assetC6 (1/2)).segments = picks.map Prod.fst ∧
      ((reduce assetC6 (1/2)).vertices =
        (picks.map (fun p => copyRange assetC6.vertices p.2 (p.2 + p.1 + 1))).flatten ∧
       (reduce assetC6 (1/2)).vertices.length =
        ((reduce assetC6 (1/2)).segments.map (fun m => m + 1)).sum) ∧
      (assetC6.thickness ≠ [] →
        (reduce assetC6 (1/2)).thickness =
          (picks.map (fun p => copyRange assetC6.thickness p.2 (p.2 + p.1 + 1))).flatten ∧
        (reduce assetC6 (1/2)).thickness.length =
          ((reduce assetC6 (1/2)).segments.map (fun m => m + 1)).sum) ∧
      (assetC6.tangents ≠ [] →
        (reduce assetC6 (1/2)).tangents =
          (picks.map (fun p => copyRange assetC6.tangents p.2 (p.2 + p.1 + 1))).flatten ∧
        (reduce assetC6 (1/2)).tangents.length =
          ((reduce assetC6 (1/2)).segments.map (fun m => m + 1)).sum) ∧
      (assetC6.transparency ≠ [] →
        (reduce assetC6 (1/2)).transparency =
          (picks.map (fun p => copyRange assetC6.transparency p.2 (p.2 + p.1 + 1))).flatten ∧
        (reduce assetC6 (1/2)).transparency.length =
          ((reduce assetC6 (1/2)).segments.map (fun m => m + 1)).sum) ∧
      (assetC6.color ≠ [] →
        (reduce assetC6 (1/2)).color =
          (picks.map (fun p => copyRange assetC6.color p.2 (p.2 + p.1 + 1))).flatten ∧
        (reduce assetC6 (1/2)).color.length =
          ((reduce assetC6 (1/2)).segments.map (fun m => m + 1)).sum)) := by
  have hceil : (⌈(getStrandCount assetC6 : ℚ) * (1/2)⌉).toNat = 2 := by
    rw [show getStrandCount assetC6 = 4 from by decide]
    have he : ((4:ℕ):ℚ) * (1/2) = 2 := by push_cast; ring
    rw [he, show ⌈(2:ℚ)⌉ = 2 from by rw [Int.ceil_eq_iff] <;> norm_num]
    rfl
  have hok : (reduceRun assetC6 (1/2)).ok = true := by
    simp only [reduceRun]
    rw [hceil]
    decide
  exact ⟨hok, claim_C6_reduce_preserves_strand_alignment assetC6 (1/2)
    (by norm_num) (by norm_num) (by decide) (by decide) (by decide) (by decide)
    (by decide) (by decide) hok⟩

/-- The axis-aligned bounding box value returned by
`HairStyle::get_bounding_box`.  The C++ `AABB` also stores
`glm::length(size)` (a Euclidean norm, unused by the claims and not
algebraic over ℚ); that radius field is omitted from the model. -/
structure AABB where
  origin : Vec3 ℚ
  size : Vec3 ℚ
  volume : ℚ
  deriving DecidableEq, Repr

/-- `HairStyle::generate_bounding_box`: a single loop over all vertex
positions accumulating the component-wise min and max, with both
accumulators initialized from the zero vector, then written into the
header's bounding-box fields together with the `has_bounding_box` bit. -/
def generateBoundingBox (a : HairStyle ℚ) : HairStyle ℚ :=
  let mm := a.vertices.foldl
    (fun (acc : Vec3 ℚ × Vec3 ℚ) v =>
      ((min acc.1.1 v.1, min acc.1.2.1 v.2.1, min acc.1.2.2 v.2.2),
       (max acc.2.1 v.1, max acc.2.2.1 v.2.1, max acc.2.2.2 v.2.2)))
    ((0, 0, 0), (0, 0, 0))
  { a with file_header :=
      { a.file_header with
          bounding_box_min := mm.1
          bounding_box_max := mm.2
          bits := { a.file_header.bits with has_bounding_box := true } } }

/-- `HairStyle::get_bounding_box`: origin is the stored minimum, size is
the component-wise maximum minus minimum. -/
def getBoundingBox (a : HairStyle ℚ) : AABB :=
  let origin := a.file_header.bounding_box_min
  let size : Vec3 ℚ :=
    (a.file_header.bounding_box_max.1 - a.file_header.bounding_box_min.1,
     a.file_header.bounding_box_max.2.1 - a.file_header.bounding_box_min.2.1,
     a.file_header.bounding_box_max.2.2 - a.file_header.bounding_box_min.2.2)
  { origin := origin, size := size, volume := size.1 * size.2.1 * size.2.2 }

/-- The paired min/max fold of `generate_bounding_box` splits into six
independent component folds. -/
theorem bbox_fold_eq (l : List (Vec3 ℚ)) :
    ∀ acc : Vec3 ℚ × Vec3 ℚ,
      l.foldl (fun (acc : Vec3 ℚ × Vec3 ℚ) v =>
        ((min acc.1.1 v.1, min acc.1.2.1 v.2.1, min acc.1.2.2 v.2.2),
         (max acc.2.1 v.1, max acc.2.2.1 v.2.1, max acc.2.2.2 v.2.2))) acc =
      ((l.foldl (fun m v => min m v.1) acc.1.1,
        l.foldl (fun m v => min m v.2.1) acc.1.2.1,
        l.foldl (fun m v => min m v.2.2) acc.1.2.2),
       (l.foldl (fun m v => max m v.1) acc.2.1,
        l.foldl (fun m v => max m v.2.1) acc.2.2.1,
        l.foldl (fun m v => max m v.2.2) acc.2.2.2)) := by
  induction l with
  | nil => intro acc; rfl
  | cons v t ih =>
    intro acc
    simp only [List.foldl_cons]
    rw [ih]

/-- Folding `min` from a seed computes the minimum of the seed and the
list minimum. -/
theorem foldl_min_eq_of_min? (xs : List ℚ) :
    ∀ (z m : ℚ), xs.min? = some m → xs.foldl min z = min z m := by
  induction xs with
  | nil => intro z m h; simp [List.min?_nil] at h
  | cons a t ih =>
    intro z m h
    rw [List.min?_cons] at h
    injection h with h
    cases ht : t.min? with
    | none =>
      have ht' : t = [] := by
        cases t with
        | nil => rfl
        | cons b u => simp [List.min?_cons] at ht
      subst ht'
      simp only [ht, Option.elim] at h
      simp [← h]
    | some mt =>
      rw [ht] at h
      simp only [Option.elim] at h
      rw [List.foldl_cons, ih _ _ ht, ← h, min_assoc]

/-- Folding `max` from a seed computes the maximum of the seed and the
list maximum. -/
theorem foldl_max_eq_of_max? (xs : List ℚ) :
    ∀ (z m : ℚ), xs.max? = some m → xs.foldl max z = max z m := by
  induction xs with
  | nil => intro z m h; simp [List.max?_nil] at h
  | cons a t ih =>
    intro z m h
    rw [List.max?_cons] at h
    injection h with h
    cases ht : t.max? with
    | none =>
      have ht' : t = [] := by
        cases t with
        | nil => rfl
        | cons b u => simp [List.max?_cons] at ht
      subst ht'
      simp only [ht, Option.elim] at h
      simp [← h]
    | some mt =>
      rw [ht] at h
      simp only [Option.elim] at h
      rw [List.foldl_cons, ih _ _ ht, ← h, max_assoc]

/-- A rational-scalar file header with the HAIR signature and zeroed
fields, for concrete geometric test assets. -/
def ratHeader : FileHeader ℚ :=
  { signature := [72, 65, 73, 82], strand_count := 0, vertex_count := 0
    bits :=
      { has_segments := false, has_vertices := false, has_thickness := false
        has_transparency := false, has_color := false, has_tangents := false
        has_indices := false, future_extension := 0, has_bounding_box := false }
    default_segment_count := 0, default_thickness := 0, default_transparency := 0
    default_color := (0, 0, 0), bounding_box_min := (0, 0, 0)
    bounding_box_max := (0, 0, 0), information := [] }

/-- A concrete rational-scalar asset holding just the given vertices. -/
def mkAssetQ (verts : List (Vec3 ℚ)) : HairStyle ℚ :=
  { file_header := { ratHeader with strand_count := 1, vertex_count := verts.length }
    segments := [], vertices := verts, thickness := [], transparency := []
    color := [], tangents := [], indices := [], seed := 0 }

/-- Accumulating a component minimum is folding `min` over the mapped
component. -/
theorem foldl_min_map {γ : Type} (f : γ → ℚ) (l : List γ) :
    ∀ z, l.foldl (fun m v => min m (f v)) z = (l.map f).foldl min z := by
  induction l with
  | nil => intro z; rfl
  | cons a t ih => intro z; simp only [List.foldl_cons, List.map_cons]; exact ih _

/-- Accumulating a component maximum is folding `max` over the mapped
component. -/
theorem foldl_max_map {γ : Type} (f : γ → ℚ) (l : List γ) :
    ∀ z, l.foldl (fun m v => max m (f v)) z = (l.map f).foldl max z := by
  induction l with
  | nil => intro z; rfl
  | cons a t ih => intro z; simp only [List.foldl_cons, List.map_cons]; exact ih _

/-- Claim C3, amended: because both accumulators of
`generate_bounding_box` start from the zero vector, the reported box is
anchored at `min(0, true minimum)` and extends to `max(0, true maximum)`
per axis — the true extrema are reported only when every axis range
already straddles zero; a strictly positive or strictly negative point
cloud gets a box clamped to zero on the corresponding side.
`get_bounding_box` then reports that stored minimum as the origin and
the component-wise max-minus-min as the size. -/
theorem claim_C3_bounding_box_zero_anchored (a : HairStyle ℚ) (hv : a.vertices ≠ [])
    (mx my mz Mx My Mz : ℚ)
    (hmx : (a.vertices.map (fun v => v.1)).min? = some mx)
    (hmy : (a.vertices.map (fun v => v.2.1)).min? = some my)
    (hmz : (a.vertices.map (fun v => v.2.2)).min? = some mz)
    (hMx : (a.vertices.map (fun v => v.1)).max? = some Mx)
    (hMy : (a.vertices.map (fun v => v.2.1)).max? = some My)
    (hMz : (a.vertices.map (fun v => v.2.2)).max? = some Mz) :
    (getBoundingBox (generateBoundingBox a)).origin = (min 0 mx, min 0 my, min 0 mz) ∧
    (getBoundingBox (generateBoundingBox a)).size =
      (max 0 Mx - min 0 mx, max 0 My - min 0 my, max 0 Mz - min 0 mz) := by
  have e1 : a.vertices.foldl (fun m v => min m v.1) 0 = min 0 mx := by
    rw [foldl_min_map]; exact foldl_min_eq_of_min? _ _ _ hmx
  have e2 : a.vertices.foldl (fun m v => min m v.2.1) 0 = min 0 my := by
    rw [foldl_min_map]; exact foldl_min_eq_of_min? _ _ _ hmy
  have e3 : a.vertices.foldl (fun m v => min m v.2.2) 0 = min 0 mz := by
    rw [foldl_min_map]; exact foldl_min_eq_of_min? _ _ _ hmz
  have e4 : a.vertices.foldl (fun m v => max m v.1) 0 = max 0 Mx := by
    rw [foldl_max_map]; exact foldl_max_eq_of_max? _ _ _ hMx
  have e5 : a.vertices.foldl (fun m v => max m v.2.1) 0 = max 0 My := by
    rw [foldl_max_map]; exact foldl_max_eq_of_max? _ _ _ hMy
  have e6 : a.vertices.foldl (fun m v => max m v.2.2) 0 = max 0 Mz := by
    rw [foldl_max_map]; exact foldl_max_eq_of_max? _ _ _ hMz
  simp [generateBoundingBox, getBoundingBox, bbox_fold_eq, e1, e2, e3, e4, e5, e6]

/-- Counterexample to claim C3 as stated: for the single strictly
positive vertex (1, 2, 3), the generated bounding box has origin
(0, 0, 0) — clamped to zero — rather than the true per-axis minimum
(1, 2, 3). -/
theorem claim_C3_counterexample :
    (mkAssetQ [(1, 2, 3)]).vertices = [(1, 2, 3)] ∧
    (getBoundingBox (generateBoundingBox (mkAssetQ [(1, 2, 3)]))).origin = (0, 0, 0) ∧
    (getBoundingBox (generateBoundingBox (mkAssetQ [(1, 2, 3)]))).origin ≠ (1, 2, 3) := by
  refine ⟨rfl, ?_, ?_⟩ <;>
  · simp [mkAssetQ, generateBoundingBox, getBoundingBox, min_def, max_def, Prod.ext_iff]
    try norm_num

/-- Concrete instantiation of (amended) claim C3: for the vertices
(1, -2, 3) and (4, 5, -6), the box is anchored at
(min 0 1, min 0 (-2), min 0 (-6)) = (0, -2, -6) with size (4, 7, 9). -/
theorem claim_C3_bounding_box_zero_anchored_witness :
    (getBoundingBox (generateBoundingBox (mkAssetQ [(1, -2, 3), (4, 5, -6)]))).origin
      = (0, -2, -6) ∧
    (getBoundingBox (generateBoundingBox (mkAssetQ [(1, -2, 3), (4, 5, -6)]))).size
      = (4, 7, 9) := by
  have h := claim_C3_bounding_box_zero_anchored (mkAssetQ [(1, -2, 3), (4, 5, -6)])
    (by simp [mkAssetQ]) 1 (-2) (-6) 4 5 3
    (by norm_num [mkAssetQ, List.min?_cons, List.min?_nil])
    (by norm_num [mkAssetQ, List.min?_cons, List.min?_nil])
    (by norm_num [mkAssetQ, List.min?_cons, List.min?_nil])
    (by norm_num [mkAssetQ, List.max?_cons, List.max?_nil])
    (by norm_num [mkAssetQ, List.max?_cons, List.max?_nil])
    (by norm_num [mkAssetQ, List.max?_cons, List.max?_nil])
  rw [h.1, h.2]
  norm_num [Prod.ext_iff, min_def, max_def]

/-- Element `i` of a mapped index range. -/
theorem getD_map_range {β : Type} (n i : Nat) (f : Nat → β) (d : β) (h : i < n) :
    (((List.range n).map f).getD i d) = f i := by
  rw [List.getD_eq_getElem?_getD, List.getElem?_map, List.getElem?_range h]
  rfl

/-- `HairStyle::create_position_thickness_data`: one 4-component value
per vertex, position in the first three components and thickness in the
fourth.  The fallback when the thickness array is absent is the
hardcoded literal `0.042f` (modelled as the rational 42/1000), not the
header's `default_thickness`. -/
def createPositionThicknessData (a : HairStyle ℚ) : List (Vec4 ℚ) :=
  (List.range (getVertexCount a)).map (fun i =>
    let t : ℚ := if hasThickness a then a.thickness.getD i 0 else 42/1000
    ((a.vertices.getD i (0, 0, 0)).1, (a.vertices.getD i (0, 0, 0)).2.1,
     (a.vertices.getD i (0, 0, 0)).2.2, t))

/-- `HairStyle::create_tangent_transparency_data`: one 4-component value
per vertex, tangent in the first three components and transparency in
the fourth, falling back to the header's `default_transparency` when the
transparency array is absent.  (`this->tangents[i]` is indexed
unconditionally in the source — undefined behavior when tangents are
absent — modelled with a zero default.) -/
def createTangentTransparencyData (a : HairStyle ℚ) : List (Vec4 ℚ) :=
  (List.range (getVertexCount a)).map (fun i =>
    let t : ℚ := if hasTransparency a then a.transparency.getD i 0
                 else a.file_header.default_transparency
    ((a.tangents.getD i (0, 0, 0)).1, (a.tangents.getD i (0, 0, 0)).2.1,
     (a.tangents.getD i (0, 0, 0)).2.2, t))

/-- `HairStyle::create_color_transparency_data`: one 4-component value
per vertex, color in the first three components (falling back to
`default_color`) and transparency in the fourth (falling back to
`default_transparency`). -/
def createColorTransparencyData (a : HairStyle ℚ) : List (Vec4 ℚ) :=
  (List.range (getVertexCount a)).map (fun i =>
    let t : ℚ := if hasTransparency a then a.transparency.getD i 0
                 else a.file_header.default_transparency
    let c : Vec3 ℚ := if hasColor a then a.color.getD i (0, 0, 0)
                      else a.file_header.default_color
    (c.1, c.2.1, c.2.2, t))

/-- A one-vertex asset with no thickness array and a nonzero header
`default_thickness`, used against claim C9. -/
def assetC9 : HairStyle ℚ :=
  { mkAssetQ [(5, 6, 7)] with
    file_header :=
      { ratHeader with strand_count := 1, vertex_count := 1, default_thickness := 1 } }

/-- Counterexample to claim C9 as stated: with the thickness array
absent and `default_thickness = 1`, `create_position_thickness_data`
emits the hardcoded `0.042f` literal in the fourth component, not the
asset's default thickness. -/
theorem claim_C9_counterexample :
    assetC9.thickness = [] ∧
    assetC9.file_header.default_thickness = 1 ∧
    createPositionThicknessData assetC9 = [(5, 6, 7, 42/1000)] ∧
    ((42:ℚ)/1000) ≠ assetC9.file_header.default_thickness := by
  refine ⟨rfl, rfl, ?_, by norm_num [assetC9, ratHeader]⟩
  simp [createPositionThicknessData, assetC9, mkAssetQ, getVertexCount, hasThickness,
        List.range_succ]

/-- Claim C9, amended: the fused-buffer accessors return the per-vertex
attribute when the optional array is present; otherwise
`create_tangent_transparency_data` and `create_color_transparency_data`
fall back to the header's `default_transparency`/`default_color` as
claimed, but `create_position_thickness_data` falls back to the
hardcoded literal `0.042f`, not the asset's `default_thickness`. -/
theorem claim_C9_fused_buffer_fallbacks (a : HairStyle ℚ) (i : Nat)
    (hi : i < getVertexCount a) :
    (createPositionThicknessData a).getD i (0, 0, 0, 0) =
      ((a.vertices.getD i (0, 0, 0)).1, (a.vertices.getD i (0, 0, 0)).2.1,
       (a.vertices.getD i (0, 0, 0)).2.2,
       if a.thickness ≠ [] then a.thickness.getD i 0 else 42/1000) ∧
    (createTangentTransparencyData a).getD i (0, 0, 0, 0) =
      ((a.tangents.getD i (0, 0, 0)).1, (a.tangents.getD i (0, 0, 0)).2.1,
       (a.tangents.getD i (0, 0, 0)).2.2,
       if a.transparency ≠ [] then a.transparency.getD i 0
       else a.file_header.default_transparency) ∧
    (createColorTransparencyData a).getD i (0, 0, 0, 0) =
      ((if a.color ≠ [] then a.color.getD i (0, 0, 0) else a.file_header.default_color).1,
       (if a.color ≠ [] then a.color.getD i (0, 0, 0) else a.file_header.default_color).2.1,
       (if a.color ≠ [] then a.color.getD i (0, 0, 0) else a.file_header.default_color).2.2,
       if a.transparency ≠ [] then a.transparency.getD i 0
       else a.file_header.default_transparency) := by
  refine ⟨?_, ?_, ?_⟩
  · simp only [createPositionThicknessData]
    rw [getD_map_range _ _ _ _ hi]
    by_cases h : a.thickness = [] <;> simp [hasThickness, h]
  · simp only [createTangentTransparencyData]
    rw [getD_map_range _ _ _ _ hi]
    by_cases h : a.transparency = [] <;> simp [hasTransparency, h]
  · simp only [createColorTransparencyData]
    rw [getD_map_range _ _ _ _ hi]
    by_cases h : a.transparency = [] <;> by_cases hc : a.color = [] <;>
      simp [hasTransparency, hasColor, h, hc]

/-- A one-vertex asset with a tangent array but no thickness,
transparency or color arrays, and nonzero header defaults, used to
instantiate claim C9. -/
def assetC9W : HairStyle ℚ :=
  { mkAssetQ [(5, 6, 7)] with
    tangents := [(1, 0, 0)]
    file_header :=
      { ratHeader with strand_count := 1, vertex_count := 1, default_thickness := 1
                       default_transparency := 1/2, default_color := (9, 9, 9) } }

/-- Concrete instantiation of (amended) claim C9 at vertex 0 of
`assetC9W`: thickness falls back to the hardcoded 0.042, transparency
and color fall back to the header defaults. -/
theorem claim_C9_fused_buffer_fallbacks_witness :
    0 < getVertexCount assetC9W ∧
    (createPositionThicknessData assetC9W).getD 0 (0, 0, 0, 0) = (5, 6, 7, 42/1000) ∧
    (createTangentTransparencyData assetC9W).getD 0 (0, 0, 0, 0) = (1, 0, 0, 1/2) ∧
    (createColorTransparencyData assetC9W).getD 0 (0, 0, 0, 0) = (9, 9, 9, 1/2) := by
  have hi : 0 < getVertexCount assetC9W := by simp [getVertexCount, assetC9W, mkAssetQ]
  have h := claim_C9_fused_buffer_fallbacks assetC9W 0 hi
  refine ⟨hi, ?_, ?_, ?_⟩
  · rw [h.1]; simp [assetC9W, mkAssetQ]
  · rw [h.2.1]; simp [assetC9W, mkAssetQ, ratHeader]
  · rw [h.2.2]; simp [assetC9W, mkAssetQ, ratHeader]

/-- `Ray::is_occluded`: after `rtcOccluded1`, Embree stores negative
infinity in the ray's `tfar` when the shadow ray hit any geometry; the
source reports occlusion as `tfar < 0.0`. -/
def isOccluded (tfar : ℚ) : Bool := decide (tfar < 0)

/-- The ambient hair albedo of `Raytracer::draw`:
`glm::vec3(0.80, 0.57, 0.32) * 0.40` (float literals as rationals). -/
def vkhrHairColor : Vec3 ℚ := (80/100 * (40/100), 57/100 * (40/100), 32/100 * (40/100))

/-- The per-pixel color decision of `Raytracer::draw`, with the Embree
queries abstracted: `hit` is the primary-ray intersection result,
`occluded` is what `shadow_ray.occluded_by(scene, context)` returned,
and `shading` is the value of the `kajiya_kay(...)` call.  On a hit the
color starts as the half-weight ambient albedo with alpha 1; inside
`if (shadow_ray.occluded_by(...) || shadows_off)` the shading replaces
the color at full weight when `shadows_off`, else is added at half
weight; on a miss the cleared background pixel is untouched (`none`).
(The final `set_pixel` clamp to [0,1] and scale by 255 is not modelled;
the claim concerns the branch structure and weights.) -/
def drawPixelColor (shadows_off hit occluded : Bool) (shading : Vec3 ℚ) :
    Option (Vec4 ℚ) :=
  if hit then
    let color : Vec4 ℚ :=
      (vkhrHairColor.1 * (1/2), vkhrHairColor.2.1 * (1/2), vkhrHairColor.2.2 * (1/2), 1)
    some
      (if occluded || shadows_off then
        if shadows_off then (shading.1, shading.2.1, shading.2.2, 1)
        else (color.1 + shading.1 * (1/2), color.2.1 + shading.2.1 * (1/2),
              color.2.2.1 + shading.2.2 * (1/2), color.2.2.2 + 0)
      else color)
  else none

/-- Claim C2: the source adds the Kajiya-Kay term when the shadow ray
IS occluded (`if (shadow_ray.occluded_by(scene, context) || shadows_off)`),
the opposite of the claimed "if and only if ... unoccluded": with
shadows on, an unoccluded hit keeps only the ambient albedo while an
occluded hit receives the half-weight shading contribution; with
shadows off the shading replaces the color at full weight as claimed. -/
theorem claim_C2_shadow_test_inverted :
    (isOccluded 1 = false ∧
      drawPixelColor false true (isOccluded 1) (1, 1, 1) =
        some (vkhrHairColor.1 * (1/2), vkhrHairColor.2.1 * (1/2),
              vkhrHairColor.2.2 * (1/2), 1)) ∧
    (isOccluded (-1) = true ∧
      drawPixelColor false true (isOccluded (-1)) (1, 1, 1) =
        some (vkhrHairColor.1 * (1/2) + 1 * (1/2), vkhrHairColor.2.1 * (1/2) + 1 * (1/2),
              vkhrHairColor.2.2 * (1/2) + 1 * (1/2), 1)) ∧
    drawPixelColor true true false (1, 1, 1) = some (1, 1, 1, 1) := by
  refine ⟨⟨?_, ?_⟩, ⟨?_, ?_⟩, ?_⟩ <;>
    norm_num [isOccluded, drawPixelColor, vkhrHairColor]

/-- Component-wise addition of rational 3-vectors. -/
def vaddQ (u v : Vec3 ℚ) : Vec3 ℚ := (u.1 + v.1, u.2.1 + v.2.1, u.2.2 + v.2.2)

/-- The volume produced by the voxelization passes: resolution, bounds
taken from the asset's bounding box, `unsigned char` occupancy counts
saturating at 255, and the finalized quantized tangents.  A `none`
tangent marks a voxel whose finalization divided by a zero density
(`0.0f / 0.0f` is NaN in the source, and casting NaN to a signed byte is
undefined behavior). -/
structure Volume where
  width : Nat
  height : Nat
  depth : Nat
  origin : Vec3 ℚ
  size : Vec3 ℚ
  densities : List Nat
  tangents : List (Option (Vec3 Int))
  deriving DecidableEq, Repr

/-- Truncation toward zero of a rational, as the float-to-signed-integer
conversion of the quantization cast behaves on in-range values. -/
def truncQ (q : ℚ) : Int := if 0 ≤ q then ⌊q⌋ else -⌊-q⌋

/-- The tangent finalization pass shared verbatim by both voxelization
variants: `precise_tangents[i] / (float)densities[i] * 127.0f`
component-wise, quantized to a signed byte.  A zero density makes the
source divide zero by zero, producing NaN; that case is modelled as
`none`. -/
def finalizeVoxelTangent (sum : Vec3 ℚ) (density : Nat) : Option (Vec3 Int) :=
  if density = 0 then none
  else some (truncQ (sum.1 / density * 127), truncQ (sum.2.1 / density * 127),
             truncQ (sum.2.2 / density * 127))

/-- The voxel index a vertex splats into in `voxelize_vertices`:
`voxel = min(floor((vertex - origin) / voxel_size), resolution - 1)`
component-wise, flattened x-fastest (`x + y*width + z*width*height`). -/
def vertexVoxelIndex (w h : Nat) (dpt : Nat) (origin vsize : Vec3 ℚ) (v : Vec3 ℚ) : Int :=
  let vx := min (⌊(v.1 - origin.1) / vsize.1⌋) ((w : Int) - 1)
  let vy := min (⌊(v.2.1 - origin.2.1) / vsize.2.1⌋) ((h : Int) - 1)
  let vz := min (⌊(v.2.2 - origin.2.2) / vsize.2.2⌋) ((dpt : Int) - 1)
  vx + vy * w + vz * w * h

/-- One accumulation step of `voxelize_vertices`: if the voxel's density
has not saturated at 255, add the vertex's tangent into the running sum
and increment the density.  A vertex outside the stored bounding box can
produce an out-of-grid index, which indexes the C++ vectors out of
bounds (undefined behavior); that case is modelled as a no-op. -/
def splat (pos : Int) (t : Vec3 ℚ) (dens : List Nat) (sums : List (Vec3 ℚ)) :
    List Nat × List (Vec3 ℚ) :=
  if 0 ≤ pos ∧ pos.toNat < dens.length then
    if dens.getD pos.toNat 0 ≠ 255 then
      (dens.set pos.toNat (dens.getD pos.toNat 0 + 1),
       sums.set pos.toNat (vaddQ (sums.getD pos.toNat (0, 0, 0)) t))
    else (dens, sums)
  else (dens, sums)

/-- `HairStyle::voxelize_vertices`: every vertex splats into exactly one
voxel; afterwards the finalization pass divides each voxel's summed
tangent by its density and quantizes. -/
def voxelizeVertices (a : HairStyle ℚ) (w h dpt : Nat) : Volume :=
  let bb := getBoundingBox a
  let vsize : Vec3 ℚ := (bb.size.1 / w, bb.size.2.1 / h, bb.size.2.2 / dpt)
  let acc := (List.range (getVertexCount a)).foldl
    (fun (acc : List Nat × List (Vec3 ℚ)) i =>
      splat (vertexVoxelIndex w h dpt bb.origin vsize (a.vertices.getD i (0, 0, 0)))
            (a.tangents.getD i (0, 0, 0)) acc.1 acc.2)
    (List.replicate (w * h * dpt) 0, List.replicate (w * h * dpt) (0, 0, 0))
  { width := w, height := h, depth := dpt, origin := bb.origin, size := bb.size
    densities := acc.1
    tangents := (List.range (w * h * dpt)).map
      (fun i => finalizeVoxelTangent (acc.2.getD i (0, 0, 0)) (acc.1.getD i 0)) }

/-- A one-vertex asset at the origin with a unit tangent and a stored
bounding box spanning (0,0,0)..(2,1,1): on a 2x1x1 grid the vertex lands
in voxel 0 and voxel 1 receives no contribution. -/
def asset8 : HairStyle ℚ :=
  { mkAssetQ [(0, 0, 0)] with
    tangents := [(1, 0, 0)]
    file_header :=
      { ratHeader with strand_count := 1, vertex_count := 1
                       bounding_box_min := (0, 0, 0), bounding_box_max := (2, 1, 1) } }

/-- Claim C8 fails on the code: in `voxelize_vertices` (and the
identical finalization loop of `voxelize_segments`) an empty voxel is
not special-cased.  On `asset8` with a 2x1x1 grid, voxel 1 has density 0
and its finalization divides `0.0f` by `0.0f` — NaN, modelled as `none`
— instead of storing the zero tangent the claim requires. -/
theorem claim_C8_zero_density_voxel_divides_by_zero :
    (voxelizeVertices asset8 2 1 1).densities = [1, 0] ∧
    (voxelizeVertices asset8 2 1 1).tangents = [some (127, 0, 0), none] ∧
    (voxelizeVertices asset8 2 1 1).tangents.getD 1 (some (0, 0, 0)) ≠ some (0, 0, 0) := by
  have hvox : (voxelizeVertices asset8 2 1 1).densities = [1, 0] ∧
      (voxelizeVertices asset8 2 1 1).tangents = [some (127, 0, 0), none] := by
    constructor <;>
    · simp [voxelizeVertices, asset8, mkAssetQ, ratHeader, getBoundingBox, getVertexCount,
            vertexVoxelIndex, splat, finalizeVoxelTangent, truncQ, vaddQ, List.range_succ]
      try norm_num
  exact ⟨hvox.1, hvox.2, by rw [hvox.2]; simp⟩

/-- `getLastD` of a nonempty list is its element at index `length - 1`. -/
theorem getLastD_eq_getD {β : Type} (l : List β) (d : β) (h : l ≠ []) :
    l.getLastD d = l.getD (l.length - 1) d := by
  cases l with
  | nil => simp at h
  | cons a t =>
    rw [List.getLastD_eq_getLast?, List.getLast?_eq_getElem?]
    simp [List.getD_eq_getElem?_getD]

/-- The element appended at the end of a list sits at index `length`. -/
theorem getD_concat_self {β : Type} (l : List β) (x : β) (d : β) :
    (l ++ [x]).getD l.length d = x := by
  rw [List.getD_append_right l [x] d l.length (le_refl _)]
  simp

/-- Component-wise difference of real 3-vectors
(`next_vertex - current_vertex`). -/
def vsubR (u v : Vec3 ℝ) : Vec3 ℝ := (u.1 - v.1, u.2.1 - v.2.1, u.2.2 - v.2.2)

/-- `glm::normalize` on 3-vectors: the vector divided by its Euclidean
norm.  Float arithmetic is modelled by exact real arithmetic; tangent
generation is the one embedded operation that needs a square root, so
this definition (and everything built on it) lives over `ℝ`. -/
noncomputable def glmNormalize (v : Vec3 ℝ) : Vec3 ℝ :=
  let n := Real.sqrt (v.1 * v.1 + v.2.1 * v.2.1 + v.2.2 * v.2.2)
  (v.1 / n, v.2.1 / n, v.2.2 / n)

/-- The strand loop of `HairStyle::generate_tangents`: for each strand,
push one normalized forward difference per segment, then duplicate the
last pushed tangent for the strand's final vertex
(`tangents.push_back(tangents.back())`).  `back()` on an empty vector —
reached only when the very first strand has zero segments — is undefined
behavior in the source; it is modelled by a zero default. -/
noncomputable def genTangentsAux (verts : List (Vec3 ℝ)) :
    List Nat → Nat → List (Vec3 ℝ) → List (Vec3 ℝ)
  | [], _, acc => acc
  | m :: rest, v, acc =>
    let seg := (List.range m).map (fun s =>
      glmNormalize (vsubR (verts.getD (v + s + 1) (0, 0, 0))
                          (verts.getD (v + s) (0, 0, 0))))
    genTangentsAux verts rest (v + m + 1)
      ((acc ++ seg) ++ [(acc ++ seg).getLastD (0, 0, 0)])

/-- `HairStyle::generate_tangents` over a real-scalar asset. -/
noncomputable def generateTangents (a : HairStyle ℝ) : HairStyle ℝ :=
  { a with tangents := genTangentsAux a.vertices (effSegments a) 0 [] }


/-- Full characterization of the tangent-generation loop: starting from
an accumulator of length `v` (the vertex cursor), it appends
`segments[i] + 1` tangents per strand, preserves everything already
accumulated, and for each strand at offset `o`: tangent `o + s` is the
normalized forward difference for every segment index `s`, the tip
tangent `o + m` repeats its predecessor when `m ≥ 1`, and a zero-segment
strand repeats the previous strand's tip (the predecessor entry in the
array) when one exists. -/
theorem genTangentsAux_spec (verts : List (Vec3 ℝ)) :
    ∀ (ms : List Nat) (v : Nat) (acc : List (Vec3 ℝ)), acc.length = v →
      (genTangentsAux verts ms v acc).length = v + (ms.map (fun m => m + 1)).sum ∧
      (∀ j, j < v →
        (genTangentsAux verts ms v acc).getD j (0, 0, 0) = acc.getD j (0, 0, 0)) ∧
      (∀ i, i < ms.length →
        ((∀ s, s < ms.getD i 0 →
          (genTangentsAux verts ms v acc).getD
              ((strandOffsets ms v).getD i 0 + s) (0, 0, 0) =
            glmNormalize (vsubR
              (verts.getD ((strandOffsets ms v).getD i 0 + s + 1) (0, 0, 0))
              (verts.getD ((strandOffsets ms v).getD i 0 + s) (0, 0, 0)))) ∧
         (1 ≤ ms.getD i 0 →
          (genTangentsAux verts ms v acc).getD
              ((strandOffsets ms v).getD i 0 + ms.getD i 0) (0, 0, 0) =
            (genTangentsAux verts ms v acc).getD
              ((strandOffsets ms v).getD i 0 + ms.getD i 0 - 1) (0, 0, 0)) ∧
         (ms.getD i 0 = 0 → 1 ≤ (strandOffsets ms v).getD i 0 →
          (genTangentsAux verts ms v acc).getD
              ((strandOffsets ms v).getD i 0) (0, 0, 0) =
            (genTangentsAux verts ms v acc).getD
              ((strandOffsets ms v).getD i 0 - 1) (0, 0, 0)))) := by
  intro ms
  induction ms with
  | nil =>
    intro v acc hacc
    refine ⟨by simpa [genTangentsAux] using hacc, ?_, ?_⟩
    · intro j _; rfl
    · intro i hi; simp at hi
  | cons m rest ih =>
    intro v acc hacc
    simp only [genTangentsAux]
    set seg := (List.range m).map (fun s =>
      glmNormalize (vsubR (verts.getD (v + s + 1) (0, 0, 0))
                          (verts.getD (v + s) (0, 0, 0)))) with hseg_def
    set acc2 := (acc ++ seg) ++ [(acc ++ seg).getLastD (0, 0, 0)] with hacc2_def
    have hseglen : seg.length = m := by simp [hseg_def]
    have haslen : (acc ++ seg).length = v + m := by simp [hacc, hseglen]
    have hacc2len : acc2.length = v + m + 1 := by
      rw [hacc2_def]
      simp [hacc, hseglen]
      omega
    obtain ⟨IHlen, IHpre, IHstr⟩ := ih (v + m + 1) acc2 hacc2len
    refine ⟨?_, ?_, ?_⟩
    · rw [IHlen]
      simp only [List.map_cons, List.sum_cons]
      omega
    · intro j hj
      rw [IHpre j (by omega), hacc2_def,
          List.getD_append _ _ _ _ (by rw [haslen]; omega),
          List.getD_append _ _ _ _ (by rw [hacc]; omega)]
    · intro i hi
      cases i with
      | zero =>
        have hoff : (strandOffsets (m :: rest) v).getD 0 0 = v := by
          simp [strandOffsets]
        have hm : (m :: rest).getD 0 0 = m := by simp
        rw [hoff, hm]
        have hasne : acc ++ seg ≠ [] → True := fun _ => trivial
        refine ⟨?_, ?_, ?_⟩
        · intro s hs
          have h1 := IHpre (v + s) (by omega)
          have h2 : acc2.getD (v + s) (0, 0, 0) = seg.getD s (0, 0, 0) := by
            rw [hacc2_def,
                List.getD_append _ _ _ _ (by rw [haslen]; omega),
                List.getD_append_right acc seg _ _ (by rw [hacc]; omega), hacc]
            have hvs : v + s - v = s := by omega
            rw [hvs]
          rw [h1, h2, hseg_def, getD_map_range _ _ _ _ hs]
        · intro hm1
          have hne : acc ++ seg ≠ [] := by
            intro hnil
            rw [hnil] at haslen
            simp at haslen
            omega
          have h1 : (genTangentsAux verts rest (v + m + 1) acc2).getD (v + m) (0, 0, 0) =
              acc2.getD (v + m) (0, 0, 0) := IHpre _ (by omega)
          have h2 : acc2.getD (v + m) (0, 0, 0) = (acc ++ seg).getLastD (0, 0, 0) := by
            rw [hacc2_def, ← haslen, getD_concat_self]
          have h3 : (acc ++ seg).getLastD (0, 0, 0) =
              (acc ++ seg).getD (v + m - 1) (0, 0, 0) := by
            rw [getLastD_eq_getD _ _ hne, haslen]
          have h4 : (genTangentsAux verts rest (v + m + 1) acc2).getD (v + m - 1) (0, 0, 0) =
              acc2.getD (v + m - 1) (0, 0, 0) := IHpre _ (by omega)
          have h5 : acc2.getD (v + m - 1) (0, 0, 0) =
              (acc ++ seg).getD (v + m - 1) (0, 0, 0) := by
            rw [hacc2_def]
            exact List.getD_append _ _ _ _ (by rw [haslen]; omega)
          rw [h1, h2, h3, h4, h5]
        · intro hm0 hv1
          have hsegnil : seg = [] := by
            rw [hseg_def, hm0]
            simp
          have haccne : acc ≠ [] := by
            intro hnil
            rw [hnil] at hacc
            simp at hacc
            omega
          have hlen0 : (acc ++ seg).length = v := by
            rw [haslen, hm0]
            omega
          have h1 : (genTangentsAux verts rest (v + m + 1) acc2).getD v (0, 0, 0) =
              acc2.getD v (0, 0, 0) := IHpre _ (by omega)
          have h2 : acc2.getD v (0, 0, 0) = (acc ++ seg).getLastD (0, 0, 0) := by
            rw [hacc2_def, ← hlen0, getD_concat_self]
          have h3 : (acc ++ seg).getLastD (0, 0, 0) = acc.getD (v - 1) (0, 0, 0) := by
            rw [hsegnil, List.append_nil, getLastD_eq_getD _ _ haccne, hacc]
          have h4 : (genTangentsAux verts rest (v + m + 1) acc2).getD (v - 1) (0, 0, 0) =
              acc2.getD (v - 1) (0, 0, 0) := IHpre _ (by omega)
          have h5 : acc2.getD (v - 1) (0, 0, 0) = acc.getD (v - 1) (0, 0, 0) := by
            rw [hacc2_def, hsegnil, List.append_nil]
            exact List.getD_append _ _ _ _ (by rw [hacc]; omega)
          rw [h1, h2, h3, h4, h5]
      | succ i =>
        have hoff : (strandOffsets (m :: rest) v).getD (i + 1) 0 =
            (strandOffsets rest (v + m + 1)).getD i 0 := by
          simp [strandOffsets]
        have hm : (m :: rest).getD (i + 1) 0 = rest.getD i 0 := by simp
        rw [hoff, hm]
        exact IHstr i (by simpa using hi)

/-- Claim C7: `generate_tangents` produces, for each strand at vertex
offset `o` with `m` segments, `tangent[o + s] = normalize(vertex[o+s+1]
- vertex[o+s])` for every segment index `s < m`, and the strand's last
vertex copies its predecessor: for `m ≥ 1` the tip tangent `o + m`
equals tangent `o + m - 1`, and in the `m = 0` boundary case the sole
vertex copies the predecessor entry in the tangent array (the previous
strand's tip) whenever one exists; one tangent is emitted per vertex. -/
theorem claim_C7_generate_tangents_forward_differences (a : HairStyle ℝ) :
    (generateTangents a).tangents.length = ((effSegments a).map (fun m => m + 1)).sum ∧
    ∀ i, i < (effSegments a).length →
      ((∀ s, s < (effSegments a).getD i 0 →
        (generateTangents a).tangents.getD
            ((strandOffsets (effSegments a) 0).getD i 0 + s) (0, 0, 0) =
          glmNormalize (vsubR
            (a.vertices.getD ((strandOffsets (effSegments a) 0).getD i 0 + s + 1) (0, 0, 0))
            (a.vertices.getD ((strandOffsets (effSegments a) 0).getD i 0 + s) (0, 0, 0)))) ∧
       (1 ≤ (effSegments a).getD i 0 →
        (generateTangents a).tangents.getD
            ((strandOffsets (effSegments a) 0).getD i 0 + (effSegments a).getD i 0) (0, 0, 0) =
          (generateTangents a).tangents.getD
            ((strandOffsets (effSegments a) 0).getD i 0 + (effSegments a).getD i 0 - 1)
            (0, 0, 0)) ∧
       ((effSegments a).getD i 0 = 0 →
        1 ≤ (strandOffsets (effSegments a) 0).getD i 0 →
        (generateTangents a).tangents.getD
            ((strandOffsets (effSegments a) 0).getD i 0) (0, 0, 0) =
          (generateTangents a).tangents.getD
            ((strandOffsets (effSegments a) 0).getD i 0 - 1) (0, 0, 0))) := by
  have h := genTangentsAux_spec a.vertices (effSegments a) 0 [] rfl
  constructor
  · simpa [generateTangents] using h.1
  · intro i hi
    simpa [generateTangents] using h.2.2 i hi

/-- A real-scalar file header with the HAIR signature and zeroed fields. -/
noncomputable def realHeader : FileHeader ℝ :=
  { signature := [72, 65, 73, 82], strand_count := 0, vertex_count := 0
    bits :=
      { has_segments := false, has_vertices := false, has_thickness := false
        has_transparency := false, has_color := false, has_tangents := false
        has_indices := false, future_extension := 0, has_bounding_box := false }
    default_segment_count := 0, default_thickness := 0, default_transparency := 0
    default_color := (0, 0, 0), bounding_box_min := (0, 0, 0)
    bounding_box_max := (0, 0, 0), information := [] }

/-- The spec's concrete tangent fixture: a single strand of 3 vertices
at (0,0,0), (1,0,0), (1,1,0) (two segments). -/
noncomputable def asset7 : HairStyle ℝ :=
  { file_header := { realHeader with strand_count := 1, vertex_count := 3 }
    segments := [2], vertices := [(0, 0, 0), (1, 0, 0), (1, 1, 0)]
    thickness := [], transparency := [], color := [], tangents := [], indices := []
    seed := 0 }

/-- Concrete instantiation of claim C7 on the spec's fixture: the
generated tangents are [(1,0,0), (0,1,0), (0,1,0)] — the tip repeats its
predecessor. -/
theorem claim_C7_generate_tangents_forward_differences_witness :
    (generateTangents asset7).tangents.length = 3 ∧
    (generateTangents asset7).tangents.getD 0 (0, 0, 0) = (1, 0, 0) ∧
    (generateTangents asset7).tangents.getD 1 (0, 0, 0) = (0, 1, 0) ∧
    (generateTangents asset7).tangents.getD 2 (0, 0, 0) =
      (generateTangents asset7).tangents.getD 1 (0, 0, 0) := by
  have h := claim_C7_generate_tangents_forward_differences asset7
  have heff : effSegments asset7 = [2] := by
    simp [effSegments, asset7]
  have hstr := h.2 0 (by rw [heff]; simp)
  have hoff : (strandOffsets (effSegments asset7) 0).getD 0 0 = 0 := by
    rw [heff]
    simp [strandOffsets]
  have hm : (effSegments asset7).getD 0 0 = 2 := by rw [heff]; simp
  refine ⟨?_, ?_, ?_, ?_⟩
  · rw [h.1, heff]
    simp
  · have := hstr.1 0 (by rw [hm]; omega)
    rw [hoff] at this
    rw [this]
    simp only [asset7]
    simp [glmNormalize, vsubR]
    try norm_num
  · have := hstr.1 1 (by rw [hm]; omega)
    rw [hoff] at this
    rw [this]
    simp only [asset7]
    simp [glmNormalize, vsubR]
    try norm_num
  · have := hstr.2.1 (by rw [hm]; omega)
    rw [hoff, hm] at this
    simpa using this

/-- The ASCII bytes of the `"HAIR"` magic signature. -/
def hairSignature : List Nat := [72, 65, 73, 82]

/-- `HairStyle::valid_signature`: the four signature bytes spell HAIR. -/
def validSignature {α : Type} (a : HairStyle α) : Bool :=
  a.file_header.signature == hairSignature

/-- `HairStyle::format_is_valid`: vertices must exist, the signature
must be valid, and each present per-vertex scalar/color array must have
exactly `vertex_count` elements.  ("The rest we assume is right" — the
source does not validate tangents or indices.) -/
def formatIsValid {α : Type} [DecidableEq α] (a : HairStyle α) : Bool :=
  hasVertices a && validSignature a &&
  (!hasThickness a || a.thickness.length == a.vertices.length) &&
  (!hasTransparency a || a.transparency.length == a.vertices.length) &&
  (!hasColor a || a.color.length == a.vertices.length)

/-- `HairStyle::update_bitfield`: recompute every presence bit from the
in-memory arrays and zero the reserved extension field
(`has_bounding_box` is left as is). -/
def updateBitfield {α : Type} (a : HairStyle α) : BitField :=
  { a.file_header.bits with
      has_segments := hasSegments a, has_vertices := hasVertices a
      has_thickness := hasThickness a, has_transparency := hasTransparency a
      has_color := hasColor a, has_tangents := hasTangents a
      has_indices := hasIndices a, future_extension := 0 }

/-- `HairStyle::complete_header`: set the signature, recompute the
bitfield, and refresh the counts from the current arrays. -/
def completeHeader {α : Type} (a : HairStyle α) : HairStyle α :=
  { a with file_header :=
      { a.file_header with
          signature := hairSignature
          bits := updateBitfield a
          strand_count := getStrandCount a
          vertex_count := getVertexCount a } }

/-- A boolean header flag as a stored token. -/
def boolTok (b : Bool) : Nat := if b then 1 else 0

/-- Flatten 3-vectors into their component tokens (the flat contiguous
dump of a `glm::vec3` array). -/
def flat3 (l : List (Vec3 Nat)) : List Nat :=
  (l.map (fun v => [v.1, v.2.1, v.2.2])).flatten

/-- Modelled from the spec: the byte dump of the fixed-size header
struct (`file.write(&file_header, sizeof(FileHeader))`, with the struct
declared in the missing `hair_style.hh`): one token per scalar field, in
the spec's declaration order, the information buffer fixed-size and
null-padded. -/
def serializeHeader (h : FileHeader Nat) : List Nat :=
  h.signature ++ [h.strand_count, h.vertex_count] ++
  [boolTok h.bits.has_segments, boolTok h.bits.has_vertices, boolTok h.bits.has_thickness,
   boolTok h.bits.has_transparency, boolTok h.bits.has_color, boolTok h.bits.has_tangents,
   boolTok h.bits.has_indices, h.bits.future_extension, boolTok h.bits.has_bounding_box] ++
  [h.default_segment_count, h.default_thickness, h.default_transparency] ++
  [h.default_color.1, h.default_color.2.1, h.default_color.2.2] ++
  [h.bounding_box_min.1, h.bounding_box_min.2.1, h.bounding_box_min.2.2] ++
  [h.bounding_box_max.1, h.bounding_box_max.2.1, h.bounding_box_max.2.2] ++
  h.information

/-- `HairStyle::save` as a stream producer: complete the header,
validate, then write the header followed by the present variable
sections in fixed order — segments, vertices, thickness, transparency,
color, tangents, indices — each gated by its (just recomputed) bitfield
bit.  `none` models the error return. -/
def save (a : HairStyle Nat) : Option (List Nat) :=
  let b := completeHeader a
  if formatIsValid b then
    some (serializeHeader b.file_header ++
      (if b.file_header.bits.has_segments then b.segments else []) ++
      (if b.file_header.bits.has_vertices then flat3 b.vertices else []) ++
      (if b.file_header.bits.has_thickness then b.thickness else []) ++
      (if b.file_header.bits.has_transparency then b.transparency else []) ++
      (if b.file_header.bits.has_color then flat3 b.color else []) ++
      (if b.file_header.bits.has_tangents then flat3 b.tangents else []) ++
      (if b.file_header.bits.has_indices then b.indices else []))
  else none

/-- A sized `file.read`: take exactly `n` tokens or fail at end of
stream. -/
def readN (n : Nat) (s : List Nat) : Option (List Nat × List Nat) :=
  if n ≤ s.length then some (s.take n, s.drop n) else none

/-- Group a flat token dump back into 3-vectors. -/
def chunk3 : List Nat → List (Vec3 Nat)
  | x :: y :: z :: rest => (x, y, z) :: chunk3 rest
  | _ => []

/-- Modelled from the spec: parsing the fixed-size header
(`file.read(&file_header, sizeof(FileHeader))`), the exact inverse field
order of `serializeHeader`. -/
def parseHeader (s : List Nat) : Option (FileHeader Nat × List Nat) := do
  let (sig, s) ← readN 4 s
  let (cnt, s) ← readN 2 s
  let (flags, s) ← readN 9 s
  let (dfl, s) ← readN 3 s
  let (dcol, s) ← readN 3 s
  let (bmin, s) ← readN 3 s
  let (bmax, s) ← readN 3 s
  let (info, s) ← readN 88 s
  some
    ({ signature := sig
       strand_count := cnt.getD 0 0, vertex_count := cnt.getD 1 0
       bits :=
         { has_segments := flags.getD 0 0 != 0, has_vertices := flags.getD 1 0 != 0
           has_thickness := flags.getD 2 0 != 0, has_transparency := flags.getD 3 0 != 0
           has_color := flags.getD 4 0 != 0, has_tangents := flags.getD 5 0 != 0
           has_indices := flags.getD 6 0 != 0, future_extension := flags.getD 7 0
           has_bounding_box := flags.getD 8 0 != 0 }
       default_segment_count := dfl.getD 0 0, default_thickness := dfl.getD 1 0
       default_transparency := dfl.getD 2 0
       default_color := (dcol.getD 0 0, dcol.getD 1 0, dcol.getD 2 0)
       bounding_box_min := (bmin.getD 0 0, bmin.getD 1 0, bmin.getD 2 0)
       bounding_box_max := (bmax.getD 0 0, bmax.getD 1 0, bmax.getD 2 0)
       information := info }, s)

def readOpt (flag : Bool) (cnt : Nat) (s : List Nat) : Option (List Nat × List Nat) :=
  if flag then readN cnt s else some ([], s)

/-- `HairStyle::load` as a stream consumer: read the header, reject a
bad signature, then read each section whose bit is set — segments sized
by the header's `strand_count`, per-vertex arrays sized by the header's
`vertex_count`, and indices sized by `get_segment_count()` computed from
the just-read arrays — and finally run the structural
`format_is_valid` check.  The xorshift seed is not part of the file (the
constructor seeds it); it is zero in the returned asset. -/
def load (s : List Nat) : Option (HairStyle Nat) := do
  let (h, s) ← parseHeader s
  if h.signature == hairSignature then
    let (segs, s) ← readOpt h.bits.has_segments h.strand_count s
    let (vertToks, s) ← readOpt h.bits.has_vertices (3 * h.vertex_count) s
    let (thick, s) ← readOpt h.bits.has_thickness h.vertex_count s
    let (transp, s) ← readOpt h.bits.has_transparency h.vertex_count s
    let (colToks, s) ← readOpt h.bits.has_color (3 * h.vertex_count) s
    let (tanToks, s) ← readOpt h.bits.has_tangents (3 * h.vertex_count) s
    let a0 : HairStyle Nat :=
      { file_header := h, segments := segs, vertices := chunk3 vertToks
        thickness := thick, transparency := transp, color := chunk3 colToks
        tangents := chunk3 tanToks, indices := [], seed := 0 }
    let (idx, _) ← readOpt h.bits.has_indices (2 * getSegmentCount a0) s
    let b : HairStyle Nat := { a0 with indices := idx }
    if formatIsValid b then some b else none
  else none

/-- Reading exactly the length of a prefix returns the prefix and the
rest of the stream. -/
theorem readN_append (l r : List Nat) : readN l.length (l ++ r) = some (l, r) := by
  simp [readN]

/-- `readN_append` with the length given as a separate equation. -/
theorem readN_append_of_length (n : Nat) (l r : List Nat) (h : l.length = n) :
    readN n (l ++ r) = some (l, r) := by
  subst h
  exact readN_append l r

/-- Grouping the flat dump of 3-vectors recovers them. -/
theorem chunk3_flat3 (l : List (Vec3 Nat)) : chunk3 (flat3 l) = l := by
  induction l with
  | nil => rfl
  | cons v t ih =>
    obtain ⟨x, y, z⟩ := v
    simpa [flat3, chunk3] using ih

/-- The flat dump of 3-vectors has three tokens per vector. -/
theorem flat3_length (l : List (Vec3 Nat)) : (flat3 l).length = 3 * l.length := by
  induction l with
  | nil => rfl
  | cons v t ih =>
    simp [flat3] at ih ⊢
    omega

/-- A stored flag token decodes to the flag. -/
theorem boolTok_bne_zero (b : Bool) : (boolTok b != 0) = b := by
  cases b <;> rfl

/-- Parsing a serialized header returns the header and leaves the rest
of the stream, provided the signature and information buffer have their
fixed sizes. -/
theorem parseHeader_serializeHeader (h : FileHeader Nat) (r : List Nat)
    (hsig : h.signature = hairSignature) (hinfo : h.information.length = 88) :
    parseHeader (serializeHeader h ++ r) = some (h, r) := by
  simp only [parseHeader, serializeHeader, hsig, List.append_assoc]
  rw [readN_append_of_length 4 hairSignature _ rfl]
  simp only [Option.bind_eq_bind, Option.some_bind]
  rw [readN_append_of_length 2 [h.strand_count, h.vertex_count] _ rfl]
  simp only [Option.some_bind]
  rw [readN_append_of_length 9 [boolTok h.bits.has_segments, boolTok h.bits.has_vertices,
    boolTok h.bits.has_thickness, boolTok h.bits.has_transparency, boolTok h.bits.has_color,
    boolTok h.bits.has_tangents, boolTok h.bits.has_indices, h.bits.future_extension,
    boolTok h.bits.has_bounding_box] _ rfl]
  simp only [Option.some_bind]
  rw [readN_append_of_length 3 [h.default_segment_count, h.default_thickness,
    h.default_transparency] _ rfl]
  simp only [Option.some_bind]
  rw [readN_append_of_length 3 [h.default_color.1, h.default_color.2.1,
    h.default_color.2.2] _ rfl]
  simp only [Option.some_bind]
  rw [readN_append_of_length 3 [h.bounding_box_min.1, h.bounding_box_min.2.1,
    h.bounding_box_min.2.2] _ rfl]
  simp only [Option.some_bind]
  rw [readN_append_of_length 3 [h.bounding_box_max.1, h.bounding_box_max.2.1,
    h.bounding_box_max.2.2] _ rfl]
  simp only [Option.some_bind]
  rw [readN_append_of_length 88 h.information r hinfo]
  simp only [Option.some_bind]
  simp [boolTok_bne_zero, ← hsig]

/-- Reading one optional section: when its flag is set the stream starts
with the section of the expected length; when clear nothing is consumed
and the section is empty. -/
theorem readOpt_append (flag : Bool) (cnt : Nat) (sec rest : List Nat)
    (h1 : flag = true → sec.length = cnt) (h2 : flag = false → sec = []) :
    readOpt flag cnt (sec ++ rest) = some (sec, rest) := by
  cases flag
  · simp [readOpt, h2 rfl]
  · simp only [readOpt, if_true]
    exact readN_append_of_length cnt sec rest (h1 rfl)

/-- Reading the final optional section consumes the remaining stream. -/
theorem readOpt_all (flag : Bool) (cnt : Nat) (sec : List Nat)
    (h1 : flag = true → sec.length = cnt) (h2 : flag = false → sec = []) :
    readOpt flag cnt sec = some (sec, []) := by
  have h := readOpt_append flag cnt sec [] h1 h2
  simpa using h

/-- A section gated on its own non-emptiness is the section itself. -/
theorem if_not_isEmpty {β : Type} (l : List β) :
    (if (!l.isEmpty) = true then l else []) = l := by
  cases l <;> simp

/-- A flattened 3-vector section gated on the source array's
non-emptiness is the flat dump itself. -/
theorem if_flat3 (l : List (Vec3 Nat)) :
    (if (!l.isEmpty) = true then flat3 l else []) = flat3 l := by
  cases l <;> simp [flat3]

/-- `format_is_valid` holds whenever the signature is right, vertices
exist, and the three validated per-vertex arrays are either absent or of
full length. -/
theorem formatIsValid_true (a : HairStyle Nat)
    (hsg : a.file_header.signature = hairSignature)
    (hv0 : a.vertices ≠ [])
    (hth : a.thickness ≠ [] → a.thickness.length = a.vertices.length)
    (htr : a.transparency ≠ [] → a.transparency.length = a.vertices.length)
    (hco : a.color ≠ [] → a.color.length = a.vertices.length) :
    formatIsValid a = true := by
  have h1 : hasVertices a = true := by simp [hasVertices, hv0]
  have h2 : validSignature a = true := by simp [validSignature, hsg]
  rw [formatIsValid, h1, h2]
  by_cases ht : a.thickness = [] <;> by_cases htt : a.transparency = [] <;>
    by_cases hc : a.color = [] <;>
      simp [hasThickness, hasTransparency, hasColor, ht, htt, hc, hth, htr, hco]

/-- The validity of an in-memory asset presupposed by the round-trip
claim: vertices exist, every present per-vertex array has full length,
the index list matches the derivable connectivity, counts fit the
header's `uint32` fields, and the fixed-size information buffer has the
header struct's size (normalized to 88 bytes, the HAIR format's fixed
buffer, per the spec's fixed-size description). -/
def validAsset (a : HairStyle Nat) : Prop :=
  a.vertices ≠ [] ∧
  (a.thickness ≠ [] → a.thickness.length = a.vertices.length) ∧
  (a.transparency ≠ [] → a.transparency.length = a.vertices.length) ∧
  (a.color ≠ [] → a.color.length = a.vertices.length) ∧
  (a.tangents ≠ [] → a.tangents.length = a.vertices.length) ∧
  (a.indices ≠ [] → a.indices.length = 2 * (a.vertices.length - getStrandCount a)) ∧
  getStrandCount a ≤ a.vertices.length ∧
  a.vertices.length < 4294967296 ∧
  a.file_header.information.length = 88

instance validAsset_decidable (a : HairStyle Nat) : Decidable (validAsset a) := by
  unfold validAsset
  infer_instance

/-- The stream `save` writes for a format-valid asset, with appends
right-associated: the serialized completed header followed by the
present sections in fixed order. -/
def saveStream (a : HairStyle Nat) : List Nat :=
  serializeHeader (completeHeader a).file_header ++
  ((if hasSegments a then a.segments else []) ++
   ((if hasVertices a then flat3 a.vertices else []) ++
    ((if hasThickness a then a.thickness else []) ++
     ((if hasTransparency a then a.transparency else []) ++
      ((if hasColor a then flat3 a.color else []) ++
       ((if hasTangents a then flat3 a.tangents else []) ++
        (if hasIndices a then a.indices else [])))))))

/-- `save` on a format-valid asset produces exactly `saveStream`. -/
theorem save_eq_saveStream (a : HairStyle Nat)
    (hfv : formatIsValid (completeHeader a) = true) :
    save a = some (saveStream a) := by
  simp only [save]
  rw [hfv]
  simp [saveStream, completeHeader, updateBitfield, List.append_assoc]

set_option maxHeartbeats 2000000 in
/-- Loading the stream written by `save` reconstructs the completed
asset: same header, same arrays.  (The xorshift seed is not stored in
the file; the loaded asset carries seed 0.) -/
theorem load_saveStream (a : HairStyle Nat) (hv : validAsset a) :
    load (saveStream a) = some { completeHeader a with seed := 0 } := by
  obtain ⟨hv0, hth, htr, hco, hta, hidx, hsc, hvcM, hinfo⟩ := hv
  have hsig : (completeHeader a).file_header.signature = hairSignature := rfl
  have hinfo2 : (completeHeader a).file_header.information.length = 88 := hinfo
  have hfseg : (completeHeader a).file_header.bits.has_segments = hasSegments a := rfl
  have hfver : (completeHeader a).file_header.bits.has_vertices = hasVertices a := rfl
  have hfthi : (completeHeader a).file_header.bits.has_thickness = hasThickness a := rfl
  have hftra : (completeHeader a).file_header.bits.has_transparency = hasTransparency a := rfl
  have hfcol : (completeHeader a).file_header.bits.has_color = hasColor a := rfl
  have hftan : (completeHeader a).file_header.bits.has_tangents = hasTangents a := rfl
  have hfidx : (completeHeader a).file_header.bits.has_indices = hasIndices a := rfl
  have hstr : (completeHeader a).file_header.strand_count = getStrandCount a := rfl
  have hvc : (completeHeader a).file_header.vertex_count = getVertexCount a := rfl
  simp only [load, saveStream]
  rw [parseHeader_serializeHeader _ _ hsig hinfo2]
  dsimp only [Option.bind_eq_bind, Option.some_bind]
  rw [hsig]
  simp only [beq_self_eq_true, if_true]
  rw [hfseg, hfver, hfthi, hftra, hfcol, hftan, hfidx, hstr, hvc]
  rw [readOpt_append (hasSegments a) (getStrandCount a)
        (if hasSegments a then a.segments else []) _
        (fun hf => by
          have hni : a.segments.isEmpty = false := by simpa [hasSegments] using hf
          simp [hf, getStrandCount, hni])
        (fun hf => by simp [hf])]
  dsimp only [Option.some_bind]
  rw [readOpt_append (hasVertices a) (3 * getVertexCount a)
        (if hasVertices a then flat3 a.vertices else []) _
        (fun hf => by simp [hf, flat3_length, getVertexCount])
        (fun hf => by simp [hf])]
  dsimp only [Option.some_bind]
  rw [readOpt_append (hasThickness a) (getVertexCount a)
        (if hasThickness a then a.thickness else []) _
        (fun hf => by
          have hne : a.thickness ≠ [] := by
            simpa [hasThickness, List.isEmpty_iff] using hf
          simp [hf, hth hne, getVertexCount])
        (fun hf => by simp [hf])]
  dsimp only [Option.some_bind]
  rw [readOpt_append (hasTransparency a) (getVertexCount a)
        (if hasTransparency a then a.transparency else []) _
        (fun hf => by
          have hne : a.transparency ≠ [] := by
            simpa [hasTransparency, List.isEmpty_iff] using hf
          simp [hf, htr hne, getVertexCount])
        (fun hf => by simp [hf])]
  dsimp only [Option.some_bind]
  rw [readOpt_append (hasColor a) (3 * getVertexCount a)
        (if hasColor a then flat3 a.color else []) _
        (fun hf => by
          have hne : a.color ≠ [] := by
            simpa [hasColor, List.isEmpty_iff] using hf
          simp [hf, flat3_length, hco hne, getVertexCount])
        (fun hf => by simp [hf])]
  dsimp only [Option.some_bind]
  rw [readOpt_append (hasTangents a) (3 * getVertexCount a)
        (if hasTangents a then flat3 a.tangents else []) _
        (fun hf => by
          have hne : a.tangents ≠ [] := by
            simpa [hasTangents, List.isEmpty_iff] using hf
          simp [hf, flat3_length, hta hne, getVertexCount])
        (fun hf => by simp [hf])]
  dsimp only [Option.some_bind]
  simp only [hasSegments, hasVertices, hasThickness, hasTransparency, hasColor, hasTangents,
             hasIndices, if_not_isEmpty, if_flat3, chunk3_flat3]
  have hscM : getStrandCount a < 4294967296 := by omega
  have hgsc : getSegmentCount
      { file_header := (completeHeader a).file_header, segments := a.segments
        vertices := a.vertices, thickness := a.thickness, transparency := a.transparency
        color := a.color, tangents := a.tangents, indices := ([] : List Nat), seed := 0 }
      = a.vertices.length - getStrandCount a := by
    have hsc2 : getStrandCount
        { file_header := (completeHeader a).file_header, segments := a.segments
          vertices := a.vertices, thickness := a.thickness, transparency := a.transparency
          color := a.color, tangents := a.tangents, indices := ([] : List Nat), seed := 0 }
        = getStrandCount a := by
      by_cases h : a.segments.isEmpty <;>
        simp [getStrandCount, h, completeHeader, updateBitfield]
    simp only [getSegmentCount, getVertexCount, hsc2]
    omega
  rw [hgsc]
  rw [readOpt_all (!a.indices.isEmpty) (2 * (a.vertices.length - getStrandCount a))
        a.indices
        (fun hf => by
          have hne : a.indices ≠ [] := by
            simpa [List.isEmpty_iff] using hf
          simpa using hidx hne)
        (fun hf => by simpa [List.isEmpty_iff] using hf)]
  dsimp only [Option.some_bind]
  rw [if_pos (formatIsValid_true
      { file_header := (completeHeader a).file_header, segments := a.segments
        vertices := a.vertices, thickness := a.thickness, transparency := a.transparency
        color := a.color, tangents := a.tangents, indices := a.indices, seed := 0 }
      rfl hv0 hth htr hco)]
  rfl

/-- Claim C1: for every valid in-memory asset, saving and re-loading
reproduces identical strand/vertex counts, an identical presence
bitfield, and element-identical content for every present array, with
the header regenerated from the array contents at save time (signature,
counts and presence bits are functions of the arrays via
`complete_header`/`update_bitfield`, not carried over). -/
theorem claim_C1_save_load_roundtrip (a : HairStyle Nat) (hv : validAsset a) :
    ∃ stream b, save a = some stream ∧ load stream = some b ∧
      b.segments = a.segments ∧ b.vertices = a.vertices ∧ b.thickness = a.thickness ∧
      b.transparency = a.transparency ∧ b.color = a.color ∧ b.tangents = a.tangents ∧
      b.indices = a.indices ∧
      getStrandCount b = getStrandCount a ∧ getVertexCount b = getVertexCount a ∧
      b.file_header = (completeHeader a).file_header ∧
      (completeHeader a).file_header.signature = hairSignature ∧
      (completeHeader a).file_header.strand_count = getStrandCount a ∧
      (completeHeader a).file_header.vertex_count = getVertexCount a ∧
      (completeHeader a).file_header.bits.has_segments = hasSegments a ∧
      (completeHeader a).file_header.bits.has_vertices = hasVertices a ∧
      (completeHeader a).file_header.bits.has_thickness = hasThickness a ∧
      (completeHeader a).file_header.bits.has_transparency = hasTransparency a ∧
      (completeHeader a).file_header.bits.has_color = hasColor a ∧
      (completeHeader a).file_header.bits.has_tangents = hasTangents a ∧
      (completeHeader a).file_header.bits.has_indices = hasIndices a := by
  have hfv : formatIsValid (completeHeader a) = true := by
    obtain ⟨hv0, hth, htr, hco, _, _, _, _, _⟩ := hv
    exact formatIsValid_true _ rfl hv0 hth htr hco
  refine ⟨saveStream a, { completeHeader a with seed := 0 },
    save_eq_saveStream a hfv, load_saveStream a hv,
    rfl, rfl, rfl, rfl, rfl, rfl, rfl, ?_, rfl, rfl, rfl, rfl, rfl, rfl, rfl, rfl,
    rfl, rfl, rfl, rfl⟩
  by_cases h : a.segments.isEmpty <;>
    simp [getStrandCount, completeHeader, updateBitfield, h]

/-- The spec's round-trip fixture: 2 strands, 5 vertices, thickness
present, no color, derivable indices present. -/
def asset1 : HairStyle Nat :=
  { file_header :=
      { natHeader with strand_count := 2, vertex_count := 5
                       information := List.replicate 88 0 }
    segments := [2, 1]
    vertices := [(0,0,0), (1,0,0), (2,0,0), (3,0,0), (4,0,0)]
    thickness := [5, 5, 0, 5, 0]
    transparency := [], color := [], tangents := []
    indices := [0, 1, 1, 2, 3, 4], seed := 42 }

/-- Concrete instantiation of claim C1 on the 2-strand fixture. -/
theorem claim_C1_save_load_roundtrip_witness :
    validAsset asset1 ∧
    (∃ stream b, save asset1 = some stream ∧ load stream = some b ∧
      b.segments = asset1.segments ∧ b.vertices = asset1.vertices ∧
      b.thickness = asset1.thickness ∧ b.transparency = asset1.transparency ∧
      b.color = asset1.color ∧ b.tangents = asset1.tangents ∧
      b.indices = asset1.indices ∧
      getStrandCount b = getStrandCount asset1 ∧
      getVertexCount b = getVertexCount asset1 ∧
      b.file_header = (completeHeader asset1).file_header ∧
      (completeHeader asset1).file_header.signature = hairSignature ∧
      (completeHeader asset1).file_header.strand_count = getStrandCount asset1 ∧
      (completeHeader asset1).file_header.vertex_count = getVertexCount asset1 ∧
      (completeHeader asset1).file_header.bits.has_segments = hasSegments asset1 ∧
      (completeHeader asset1).file_header.bits.has_vertices = hasVertices asset1 ∧
      (completeHeader asset1).file_header.bits.has_thickness = hasThickness asset1 ∧
      (completeHeader asset1).file_header.bits.has_transparency = hasTransparency asset1 ∧
      (completeHeader asset1).file_header.bits.has_color = hasColor asset1 ∧
      (completeHeader asset1).file_header.bits.has_tangents = hasTangents asset1 ∧
      (completeHeader asset1).file_header.bits.has_indices = hasIndices asset1) :=
  ⟨by decide, claim_C1_save_load_roundtrip asset1 (by decide)⟩
